import Mathlib

/-!
# tgui `common/storage.js`: key-value storage backends and their proxy

A shallow embedding of `src/tgui/packages/common/storage.js`.

JavaScript values are modelled structurally.  `JSData` is the space of values a
caller stores (JSON-compatible structures plus `undefined`); `JSValue` adds the
intrinsic objects of the realm, which a property read can return through the
prototype chain of an ordinary object.
-/

namespace Storage

/-! ## JavaScript values -/

/-- Number values.  Finite numbers are the integer-valued ones; `int n` stands
for a double only when `n` is a safe integer. -/
inductive JSNumber
  | nan
  | posInf
  | negInf
  | negZero
  | int (n : Int)
  deriving DecidableEq, Repr

/-- Values a caller hands to a backend: JSON-compatible structures and
`undefined`.  An object is its list of own enumerable properties in
enumeration order. -/
inductive JSData
  | undefined
  | null
  | bool (b : Bool)
  | number (n : JSNumber)
  | string (s : String)
  | array (elems : List JSData)
  | object (props : List (String × JSData))
  deriving Repr

/-- Values a read can produce: data, or an intrinsic object of the realm
(a built-in function or prototype object), named by its well-known path. -/
inductive JSValue
  | data (d : JSData)
  | intrinsic (name : String)
  deriving Repr

/-- Exceptions thrown by the modelled code.  `unsupported` marks a result the
value model cannot express; `outOfFuel` is the result of a parser whose
recursion bound is used up. -/
inductive JSError
  | typeError
  | syntaxError
  | hostError
  | unsupported
  | outOfFuel
  deriving DecidableEq, Repr

/-! ## Ordinary objects used as maps

`MemoryBackend` keeps its entries in an object literal `{}`.  Such an object
has own properties and a `[[Prototype]]`, initially `%Object.prototype%`, and
`obj[key]` / `obj[key] = value` are the ordinary `[[Get]]` / `[[Set]]`. -/

/-- The `[[Prototype]]` slot of the store object: `%Object.prototype%` at
creation; the `__proto__` setter can replace it by `null` or by an object
value supplied by the caller. -/
inductive Proto
  | null
  | objectPrototype
  | object (props : List (String × JSData))
  | array (elems : List JSData)
  deriving Repr

/-- The prototype as the value returned by the `__proto__` getter. -/
def Proto.toValue : Proto → JSValue
  | .null => .data .null
  | .objectPrototype => .intrinsic "Object.prototype"
  | .object props => .data (.object props)
  | .array elems => .data (.array elems)

/-- What a lookup of a key along a prototype chain finds. -/
inductive Slot
  | absent
  | dataProperty (v : JSValue)
  | protoAccessor
  deriving Repr

/-- Function-valued data properties of `%Object.prototype%`. -/
def objectPrototypeMethods : List String :=
  ["hasOwnProperty", "isPrototypeOf", "propertyIsEnumerable", "toLocaleString",
   "toString", "valueOf", "__defineGetter__", "__defineSetter__",
   "__lookupGetter__", "__lookupSetter__"]

/-- Function-valued data properties of `%Array.prototype%` (ECMAScript 2015). -/
def arrayPrototypeMethods : List String :=
  ["concat", "copyWithin", "entries", "every", "fill", "filter", "find",
   "findIndex", "forEach", "indexOf", "join", "keys", "lastIndexOf", "map",
   "pop", "push", "reduce", "reduceRight", "reverse", "shift", "slice", "some",
   "sort", "splice", "toLocaleString", "toString", "unshift", "values"]

/-- Lookup in `%Object.prototype%`: `constructor` and the methods are data
properties, `__proto__` is an accessor property. -/
def objectPrototypeSlot (key : String) : Slot :=
  if key = "__proto__" then .protoAccessor
  else if key = "constructor" then .dataProperty (.intrinsic "Object")
  else if key ∈ objectPrototypeMethods then
    .dataProperty (.intrinsic ("Object.prototype." ++ key))
  else .absent

/-- Lookup in `%Array.prototype%`, continuing in `%Object.prototype%`. -/
def arrayPrototypeSlot (key : String) : Slot :=
  if key = "constructor" then .dataProperty (.intrinsic "Array")
  else if key ∈ arrayPrototypeMethods then
    .dataProperty (.intrinsic ("Array.prototype." ++ key))
  else objectPrototypeSlot key

/-- Own property of an array value: an element under its canonical index, or
`length`. -/
def arrayOwn (elems : List JSData) (key : String) : Option JSData :=
  if key = "length" then some (.number (.int elems.length))
  else (elems.enum.find? (fun p => toString p.1 == key)).map (fun p => p.2)

/-- Lookup of `key` starting at a prototype and walking up the chain. -/
def Proto.slot : Proto → String → Slot
  | .null, _ => .absent
  | .objectPrototype, key => objectPrototypeSlot key
  | .object props, key =>
    match props.lookup key with
    | some v => .dataProperty (.data v)
    | none => objectPrototypeSlot key
  | .array elems, key =>
    match arrayOwn elems key with
    | some v => .dataProperty (.data v)
    | none => arrayPrototypeSlot key

/-- An ordinary extensible object whose own properties are writable data
properties. -/
structure JSObject where
  props : List (String × JSData)
  proto : Proto
  deriving Repr

/-- The object literal `{}`. -/
def JSObject.empty : JSObject := { props := [], proto := .objectPrototype }

/-- Create or overwrite an own data property, keeping its position when it
exists. -/
def setOwn : List (String × JSData) → String → JSData → List (String × JSData)
  | [], key, value => [(key, value)]
  | (k, v) :: rest, key, value =>
    if k = key then (k, value) :: rest else (k, v) :: setOwn rest key value

/-- The read `obj[key]`. -/
def JSObject.get (obj : JSObject) (key : String) : JSValue :=
  match obj.props.lookup key with
  | some v => .data v
  | none =>
    match obj.proto.slot key with
    | .absent => .data .undefined
    | .dataProperty v => v
    | .protoAccessor => obj.proto.toValue

/-- The `__proto__` setter applied to `obj`: an object or `null` becomes the
new prototype, any other value is ignored. -/
def JSObject.setPrototype (obj : JSObject) : JSData → JSObject
  | .null => { obj with proto := .null }
  | .object props => { obj with proto := .object props }
  | .array elems => { obj with proto := .array elems }
  | _ => obj

/-- The assignment `obj[key] = value`. -/
def JSObject.set (obj : JSObject) (key : String) (value : JSData) : JSObject :=
  match obj.props.lookup key with
  | some _ => { obj with props := setOwn obj.props key value }
  | none =>
    match obj.proto.slot key with
    | .protoAccessor => obj.setPrototype value
    | _ => { obj with props := setOwn obj.props key value }

/-! ## JSON text

`JSON.stringify(value)` and `JSON.parse(text)` on data values, over lists of
characters.  Numbers with a fraction or an exponent are outside the number
model; the parser reports them as `unsupported`, as it does escapes that
denote an unpaired surrogate. -/

/-- Lower-case hexadecimal digit. -/
def hexDigit (n : Nat) : Char :=
  if n < 10 then Char.ofNat (48 + n) else Char.ofNat (87 + n)

/-- The escape of one character in `QuoteJSONString`. -/
def escapeChar (c : Char) : List Char :=
  if c = '"' then ['\\', '"']
  else if c = '\\' then ['\\', '\\']
  else if c = '\x08' then ['\\', 'b']
  else if c = '\x0c' then ['\\', 'f']
  else if c = '\n' then ['\\', 'n']
  else if c = '\r' then ['\\', 'r']
  else if c = '\t' then ['\\', 't']
  else if c.toNat < 32 then
    ['\\', 'u', '0', '0', hexDigit (c.toNat / 16), hexDigit (c.toNat % 16)]
  else [c]

/-- The escaped characters of a string followed by the closing quote. -/
def quoteBody : List Char → List Char
  | [] => ['"']
  | c :: cs => escapeChar c ++ quoteBody cs

/-- `QuoteJSONString`. -/
def quoteJSONString (s : String) : List Char := '"' :: quoteBody s.data

/-- Decimal digits of a natural number, most significant first. -/
def natDigits : Nat → Nat → List Char
  | 0, _ => []
  | fuel + 1, n =>
    if n < 10 then [Char.ofNat (48 + n)]
    else natDigits fuel (n / 10) ++ [Char.ofNat (48 + n % 10)]

/-- `Number::toString` on the integers. -/
def intToString (n : Int) : List Char :=
  if n < 0 then '-' :: natDigits (n.natAbs + 1) n.natAbs
  else natDigits (n.natAbs + 1) n.natAbs

/-- The text `JSON.stringify` emits for a number: non-finite numbers become
`null`, negative zero prints as `0`. -/
def numberToJSON : JSNumber → List Char
  | .nan => ['n', 'u', 'l', 'l']
  | .posInf => ['n', 'u', 'l', 'l']
  | .negInf => ['n', 'u', 'l', 'l']
  | .negZero => ['0']
  | .int n => intToString n

/-- Join with commas. -/
def joinComma : List (List Char) → List Char
  | [] => []
  | [t] => t
  | t :: ts => t ++ ',' :: joinComma ts

mutual
/-- `SerializeJSONProperty`: `none` is the result `undefined`. -/
def serialize : JSData → Option (List Char)
  | .undefined => none
  | .null => some ['n', 'u', 'l', 'l']
  | .bool true => some ['t', 'r', 'u', 'e']
  | .bool false => some ['f', 'a', 'l', 's', 'e']
  | .number n => some (numberToJSON n)
  | .string s => some (quoteJSONString s)
  | .array elems => some ('[' :: (joinComma (serializeElems elems) ++ [']']))
  | .object props => some ('{' :: (joinComma (serializeProps props) ++ ['}']))
/-- `SerializeJSONArray`: an element without a serialization prints `null`. -/
def serializeElems : List JSData → List (List Char)
  | [] => []
  | x :: xs => (serialize x).getD ['n', 'u', 'l', 'l'] :: serializeElems xs
/-- `SerializeJSONObject`: a property without a serialization is skipped. -/
def serializeProps : List (String × JSData) → List (List Char)
  | [] => []
  | (k, v) :: ps =>
    match serialize v with
    | some t => (quoteJSONString k ++ ':' :: t) :: serializeProps ps
    | none => serializeProps ps
end

/-- `JSON.stringify(value)`: a string, or `none` for `undefined`. -/
def JSON.stringify (value : JSData) : Option String :=
  (serialize value).map String.mk

/-- JSON whitespace. -/
def isWs (c : Char) : Bool := c = ' ' || c = '\t' || c = '\n' || c = '\r'

def skipWs : List Char → List Char
  | [] => []
  | c :: cs => if isWs c then skipWs cs else c :: cs

def isDigit (c : Char) : Bool := 48 ≤ c.toNat && c.toNat ≤ 57

/-- Value of a run of decimal digits. -/
def digitsValue (ds : List Char) : Nat :=
  ds.foldl (fun a c => 10 * a + (c.toNat - 48)) 0

/-- Split off the leading run of digits. -/
def spanDigits : List Char → List Char × List Char
  | [] => ([], [])
  | c :: cs =>
    if isDigit c then ((spanDigits cs).1.cons c, (spanDigits cs).2) else ([], c :: cs)

def hexValue (c : Char) : Option Nat :=
  if 48 ≤ c.toNat ∧ c.toNat ≤ 57 then some (c.toNat - 48)
  else if 97 ≤ c.toNat ∧ c.toNat ≤ 102 then some (c.toNat - 87)
  else if 65 ≤ c.toNat ∧ c.toNat ≤ 70 then some (c.toNat - 55)
  else none

/-- Value of four hexadecimal digits. -/
def hex4 (a b c d : Char) : Option Nat :=
  match hexValue a, hexValue b, hexValue c, hexValue d with
  | some x, some y, some z, some w => some (((x * 16 + y) * 16 + z) * 16 + w)
  | _, _, _, _ => none

/-- The character denoted by a single-character escape. -/
def simpleEscape (e : Char) : Option Char :=
  if e = '"' then some '"'
  else if e = '\\' then some '\\'
  else if e = '/' then some '/'
  else if e = 'b' then some '\x08'
  else if e = 'f' then some '\x0c'
  else if e = 'n' then some '\n'
  else if e = 'r' then some '\r'
  else if e = 't' then some '\t'
  else none

/-- Prepend a character to the string of a parse result. -/
def consChar (c : Char) :
    Except JSError (List Char × List Char) → Except JSError (List Char × List Char)
  | .ok (s, rest) => .ok (c :: s, rest)
  | .error e => .error e

/-- The escape sequence after `\u`: four hexadecimal digits, and for a high
surrogate the low surrogate that must follow it. -/
def unicodeEscape : List Char → Except JSError (Char × List Char)
  | h1 :: h2 :: h3 :: h4 :: rest =>
    match hex4 h1 h2 h3 h4 with
    | none => .error .syntaxError
    | some u =>
      if 0xD800 ≤ u ∧ u ≤ 0xDBFF then
        match rest with
        | b :: v :: g1 :: g2 :: g3 :: g4 :: rest1 =>
          if b = '\\' ∧ v = 'u' then
            match hex4 g1 g2 g3 g4 with
            | none => .error .syntaxError
            | some w =>
              if 0xDC00 ≤ w ∧ w ≤ 0xDFFF then
                .ok (Char.ofNat (0x10000 + (u - 0xD800) * 0x400 + (w - 0xDC00)), rest1)
              else .error .unsupported
          else .error .unsupported
        | _ => .error .unsupported
      else if 0xDC00 ≤ u ∧ u ≤ 0xDFFF then .error .unsupported
      else .ok (Char.ofNat u, rest)
  | _ => .error .syntaxError

/-- One step inside a JSON string: the closing quote (`none`), an escape
sequence, or a character that needs no escape. -/
def stringUnit : List Char → Except JSError (Option Char × List Char)
  | [] => .error .syntaxError
  | c :: rest =>
    if c = '"' then .ok (none, rest)
    else if c = '\\' then
      match rest with
      | [] => .error .syntaxError
      | e :: rest1 =>
        if e = 'u' then
          match unicodeEscape rest1 with
          | .ok (ch, rest2) => .ok (some ch, rest2)
          | .error err => .error err
        else
          match simpleEscape e with
          | some ch => .ok (some ch, rest1)
          | none => .error .syntaxError
    else if c.toNat < 32 then .error .syntaxError
    else .ok (some c, rest)

/-- A JSON string after its opening quote: its characters and the text after
the closing quote. -/
def parseStringBody : Nat → List Char → Except JSError (List Char × List Char)
  | 0, _ => .error .outOfFuel
  | fuel + 1, cs =>
    match stringUnit cs with
    | .error e => .error e
    | .ok (none, rest) => .ok ([], rest)
    | .ok (some ch, rest) => consChar ch (parseStringBody fuel rest)

/-- A JSON string after its opening quote. -/
def parseString (cs : List Char) : Except JSError (List Char × List Char) :=
  parseStringBody (cs.length + 1) cs

/-- The number denoted by a sign and an integer part. -/
def mkNumber (negative : Bool) (n : Nat) : JSNumber :=
  if negative then (if n = 0 then .negZero else .int (-(n : Int))) else .int n

/-- The unsigned part of a JSON number: `0` or a run of digits without a
leading zero, not followed by a fraction or an exponent. -/
def parseUnsigned (negative : Bool) : List Char → Except JSError (JSNumber × List Char)
  | [] => .error .syntaxError
  | d :: r =>
    if isDigit d then
      let split := if d = '0' then ([d], r) else spanDigits (d :: r)
      match split.2 with
      | [] => .ok (mkNumber negative (digitsValue split.1), [])
      | c :: r1 =>
        if c = '.' ∨ c = 'e' ∨ c = 'E' then .error .unsupported
        else .ok (mkNumber negative (digitsValue split.1), c :: r1)
    else .error .syntaxError

/-- A JSON number. -/
def parseNumber : List Char → Except JSError (JSNumber × List Char)
  | [] => .error .syntaxError
  | c :: r => if c = '-' then parseUnsigned true r else parseUnsigned false (c :: r)

/-- The text after a given prefix. -/
def dropPrefix : List Char → List Char → Option (List Char)
  | [], cs => some cs
  | _ :: _, [] => none
  | p :: ps, c :: cs => if p = c then dropPrefix ps cs else none

/-- The object built by `CreateDataProperty` on each member in text order: a
repeated key overwrites. -/
def buildObject (members : List (String × JSData)) : List (String × JSData) :=
  members.foldl (fun acc m => setOwn acc m.1 m.2) []

mutual
/-- A JSON value and the text after it. -/
def parseValue : Nat → List Char → Except JSError (JSData × List Char)
  | 0, _ => .error .outOfFuel
  | fuel + 1, cs =>
    match skipWs cs with
    | [] => .error .syntaxError
    | c :: r =>
      if c = '[' then
        match skipWs r with
        | [] => .error .syntaxError
        | d :: r1 =>
          if d = ']' then .ok (.array [], r1)
          else
            match parseElems fuel (d :: r1) with
            | .ok (xs, r2) => .ok (.array xs, r2)
            | .error e => .error e
      else if c = '{' then
        match skipWs r with
        | [] => .error .syntaxError
        | d :: r1 =>
          if d = '}' then .ok (.object [], r1)
          else
            match parseMembers fuel (d :: r1) with
            | .ok (ms, r2) => .ok (.object (buildObject ms), r2)
            | .error e => .error e
      else if c = '"' then
        match parseString r with
        | .ok (s, r1) => .ok (.string (String.mk s), r1)
        | .error e => .error e
      else if c = 'n' then
        match dropPrefix ['u', 'l', 'l'] r with
        | some r1 => .ok (.null, r1)
        | none => .error .syntaxError
      else if c = 't' then
        match dropPrefix ['r', 'u', 'e'] r with
        | some r1 => .ok (.bool true, r1)
        | none => .error .syntaxError
      else if c = 'f' then
        match dropPrefix ['a', 'l', 's', 'e'] r with
        | some r1 => .ok (.bool false, r1)
        | none => .error .syntaxError
      else
        match parseNumber (c :: r) with
        | .ok (n, r1) => .ok (.number n, r1)
        | .error e => .error e
/-- The elements of a non-empty array up to and including the closing
bracket. -/
def parseElems : Nat → List Char → Except JSError (List JSData × List Char)
  | 0, _ => .error .outOfFuel
  | fuel + 1, cs =>
    match parseValue fuel cs with
    | .error e => .error e
    | .ok (v, r) =>
      match skipWs r with
      | [] => .error .syntaxError
      | d :: r1 =>
        if d = ',' then
          match parseElems fuel r1 with
          | .ok (vs, r2) => .ok (v :: vs, r2)
          | .error e => .error e
        else if d = ']' then .ok ([v], r1)
        else .error .syntaxError
/-- The members of a non-empty object up to and including the closing
brace. -/
def parseMembers : Nat → List Char → Except JSError (List (String × JSData) × List Char)
  | 0, _ => .error .outOfFuel
  | fuel + 1, cs =>
    match skipWs cs with
    | [] => .error .syntaxError
    | q :: r =>
      if q = '"' then
        match parseString r with
        | .error e => .error e
        | .ok (k, r1) =>
          match skipWs r1 with
          | [] => .error .syntaxError
          | col :: r2 =>
            if col = ':' then
              match parseValue fuel r2 with
              | .error e => .error e
              | .ok (v, r3) =>
                match skipWs r3 with
                | [] => .error .syntaxError
                | d :: r4 =>
                  if d = ',' then
                    match parseMembers fuel r4 with
                    | .ok (ms, r5) => .ok ((String.mk k, v) :: ms, r5)
                    | .error e => .error e
                  else if d = '}' then .ok ([(String.mk k, v)], r4)
                  else .error .syntaxError
            else .error .syntaxError
      else .error .syntaxError
end

/-- `JSON.parse(text)`: the value, or the exception thrown.  Every call of
the parser functions uses up one unit of the bound and, at most every second
call apart, one character of the text, so twice the length is enough. -/
def JSON.parse (text : String) : Except JSError JSData :=
  match parseValue (2 * text.data.length + 2) text.data with
  | .error e => .error e
  | .ok (v, rest) =>
    match skipWs rest with
    | [] => .ok v
    | _ :: _ => .error .syntaxError

/-! ## Backends -/

def IMPL_MEMORY : Nat := 0
def IMPL_HUB_STORAGE : Nat := 1
def IMPL_INDEXED_DB : Nat := 2

/-- The class `MemoryBackend`. -/
structure MemoryBackend where
  impl : Nat
  store : JSObject
  deriving Repr

/-- The constructor: `this.impl = IMPL_MEMORY; this.store = {}`. -/
def MemoryBackend.new : MemoryBackend :=
  { impl := IMPL_MEMORY, store := JSObject.empty }

/-- The method `get(key)`: `return this.store[key]`. -/
def MemoryBackend.get (b : MemoryBackend) (key : String) : JSValue :=
  b.store.get key

/-- The method `set(key, value)`: `this.store[key] = value`. -/
def MemoryBackend.set (b : MemoryBackend) (key : String) (value : JSData) :
    MemoryBackend :=
  { b with store := b.store.set key value }

/-- The method `remove(key)`: `this.store[key] = undefined`. -/
def MemoryBackend.remove (b : MemoryBackend) (key : String) : MemoryBackend :=
  { b with store := b.store.set key .undefined }

/-- The method `clear()`: `this.store = {}`. -/
def MemoryBackend.clear (b : MemoryBackend) : MemoryBackend :=
  { b with store := JSObject.empty }

/-- Values for which `JSON.stringify` followed by `JSON.parse` is expected to
be the identity: no `undefined`, numbers that are safe integers, objects
without a repeated key. -/
def JSNumber.isJSON : JSNumber → Bool
  | .int n => decide (n.natAbs ≤ 9007199254740991)
  | _ => false

mutual
/-- JSON-representable data. -/
def JSData.isJSON : JSData → Bool
  | .undefined => false
  | .null => true
  | .bool _ => true
  | .number n => n.isJSON
  | .string _ => true
  | .array elems => allJSON elems
  | .object props => propsJSON props && decide (props.map Prod.fst).Nodup
/-- Every element is JSON-representable. -/
def allJSON : List JSData → Bool
  | [] => true
  | x :: xs => x.isJSON && allJSON xs
/-- Every property value is JSON-representable. -/
def propsJSON : List (String × JSData) → Bool
  | [] => true
  | (_, v) :: ps => v.isJSON && propsJSON ps
end

/-- Modelled from the spec: the host bridge, a string-keyed store of strings
in which `getItem` returns the string last passed to `setItem` for the key and
no string (`none`) for a key that holds nothing. -/
abbrev HubStore := List (String × String)

/-- Modelled from the spec: `getItem(key)` of the host bridge. -/
def HubStore.getItem (st : HubStore) (key : String) : Option String :=
  st.lookup key

/-- Modelled from the spec: `setItem(key, value)` of the host bridge.  The
bridge stores strings only; an argument that is not a string (`none`, the
value `undefined`) is stored as its string conversion. -/
def HubStore.setItem (st : HubStore) (key : String) (value : Option String) :
    HubStore :=
  (key, value.getD "undefined") :: st.filter (fun p => p.1 != key)

/-- Modelled from the spec: `removeItem(key)` of the host bridge. -/
def HubStore.removeItem (st : HubStore) (key : String) : HubStore :=
  st.filter (fun p => p.1 != key)

/-- Modelled from the spec: `clear()` of the host bridge. -/
def HubStore.clear (_st : HubStore) : HubStore := []

/-- The global `window.hubStorage`: reading it throws, or it is `undefined`,
or it is the bridge object. -/
inductive HubSlot
  | inaccessible
  | absent
  | attached (store : HubStore)
  deriving Repr

/-- The class `HubStorageBackend`. -/
structure HubStorageBackend where
  impl : Nat
  deriving Repr

/-- The constructor: `this.impl = IMPL_HUB_STORAGE`. -/
def HubStorageBackend.new : HubStorageBackend := { impl := IMPL_HUB_STORAGE }

/-- The method `get(key)`: read the item; when it is a string, return
`JSON.parse` of it, otherwise return `undefined`. -/
def HubStorageBackend.get (_b : HubStorageBackend) (key : String) :
    HubSlot → Except JSError JSValue
  | .inaccessible => .error .hostError
  | .absent => .error .typeError
  | .attached st =>
    match st.getItem key with
    | some value =>
      match JSON.parse value with
      | .ok d => .ok (.data d)
      | .error e => .error e
    | none => .ok (.data .undefined)

/-- The method `set(key, value)`:
`window.hubStorage.setItem(key, JSON.stringify(value))`. -/
def HubStorageBackend.set (_b : HubStorageBackend) (key : String) (value : JSData) :
    HubSlot → Except JSError JSValue × HubSlot
  | .inaccessible => (.error .hostError, .inaccessible)
  | .absent => (.error .typeError, .absent)
  | .attached st =>
    (.ok (.data .undefined), .attached (st.setItem key (JSON.stringify value)))

/-- The method `remove(key)`: `window.hubStorage.removeItem(key)`. -/
def HubStorageBackend.remove (_b : HubStorageBackend) (key : String) :
    HubSlot → Except JSError JSValue × HubSlot
  | .inaccessible => (.error .hostError, .inaccessible)
  | .absent => (.error .typeError, .absent)
  | .attached st => (.ok (.data .undefined), .attached (st.removeItem key))

/-- The method `clear()`: `window.hubStorage.clear()`. -/
def HubStorageBackend.clear (_b : HubStorageBackend) :
    HubSlot → Except JSError JSValue × HubSlot
  | .inaccessible => (.error .hostError, .inaccessible)
  | .absent => (.error .typeError, .absent)
  | .attached st => (.ok (.data .undefined), .attached st.clear)

/-! ## Capability probe -/

/-- `ToBoolean`, the conversion applied by `Boolean(x)` and by `!x`. -/
def toBoolean : JSValue → Bool
  | .data .undefined => false
  | .data .null => false
  | .data (.bool b) => b
  | .data (.number .nan) => false
  | .data (.number .negZero) => false
  | .data (.number (.int n)) => decide (n ≠ 0)
  | .data (.number _) => true
  | .data (.string s) => decide (s ≠ "")
  | .data (.array _) => true
  | .data (.object _) => true
  | .intrinsic _ => true

/-- `testGeneric`: `testFn => () => { try { return Boolean(testFn()); }
catch { return false; } }`.  A function call is a state transformer that
returns or throws and leaves a state either way. -/
def testGeneric {σ ε : Type} (testFn : σ → Except ε JSValue × σ) :
    σ → Except ε Bool × σ :=
  fun s =>
    match testFn s with
    | (.ok v, s1) => (.ok (toBoolean v), s1)
    | (.error _, s1) => (.ok false, s1)

/-- The check `() => window.hubStorage && window.hubStorage.getItem`. -/
def hubStorageCheck : HubSlot → Except JSError JSValue × HubSlot
  | .inaccessible => (.error .hostError, .inaccessible)
  | .absent => (.ok (.data .undefined), .absent)
  | .attached st => (.ok (.intrinsic "hubStorage.getItem"), .attached st)

/-- `testHubStorage = testGeneric(...)`. -/
def testHubStorage : HubSlot → Except JSError Bool × HubSlot :=
  testGeneric hubStorageCheck

/-- A call counter around a function, for counting its invocations. -/
def counted {σ ε α : Type} (f : σ → Except ε α × σ) :
    σ × Nat → Except ε α × (σ × Nat) :=
  fun s => ((f s.1).1, ((f s.1).2, s.2 + 1))

/-! ## Storage proxy -/

/-- Either backend behind the four-method contract. -/
inductive Backend
  | memory (b : MemoryBackend)
  | hubStorage (b : HubStorageBackend)
  deriving Repr

def Backend.impl : Backend → Nat
  | .memory b => b.impl
  | .hubStorage b => b.impl

/-- `backend.get(key)`: the outcome, the backend and the bridge afterwards. -/
def Backend.get : Backend → String → HubSlot → Except JSError JSValue × Backend × HubSlot
  | .memory b, key, hub => (.ok (b.get key), .memory b, hub)
  | .hubStorage b, key, hub => (b.get key hub, .hubStorage b, hub)

/-- `backend.set(key, value)`. -/
def Backend.set : Backend → String → JSData → HubSlot →
    Except JSError JSValue × Backend × HubSlot
  | .memory b, key, value, hub => (.ok (.data .undefined), .memory (b.set key value), hub)
  | .hubStorage b, key, value, hub =>
    ((b.set key value hub).1, .hubStorage b, (b.set key value hub).2)

/-- `backend.remove(key)`. -/
def Backend.remove : Backend → String → HubSlot →
    Except JSError JSValue × Backend × HubSlot
  | .memory b, key, hub => (.ok (.data .undefined), .memory (b.remove key), hub)
  | .hubStorage b, key, hub => ((b.remove key hub).1, .hubStorage b, (b.remove key hub).2)

/-- `backend.clear()`. -/
def Backend.clear : Backend → HubSlot → Except JSError JSValue × Backend × HubSlot
  | .memory b, hub => (.ok (.data .undefined), .memory b.clear, hub)
  | .hubStorage b, hub => ((b.clear hub).1, .hubStorage b, (b.clear hub).2)

/-- A method call on the proxy. -/
inductive Op
  | get (key : String)
  | set (key : String) (value : JSData)
  | remove (key : String)
  | clear
  deriving Repr

/-- Calls made to the environment, in order. -/
inductive Call
  | testHubStorage
  | winset (id : JSValue) (name value : String)
  | addEventListener (type : String)
  | removeEventListener (type : String)
  | warn (message : String)
  deriving Repr

/-- State of `backendPromise`. -/
inductive Promise
  | pending
  | fulfilled (backend : Backend)
  | rejected (e : JSError)
  deriving Repr

/-- A finished method call: the call, the `impl` of the backend that served
it (`none` when `backendPromise` was rejected) and what it produced. -/
structure Settled where
  op : Op
  impl : Option Nat
  outcome : Except JSError JSValue
  deriving Repr

/-- The proxy with the environment it runs in.  `TRIDENT` is `Byond.TRIDENT`,
`hubStorage` is `window.hubStorage`, `listening` tells whether the listener
of the handshake is registered on `document`, `trace` lists the calls made to
the environment, `created` the `impl` of every backend constructed,
`listenerRuns` counts executions of the listener body, `waiting` holds the
method calls suspended at `await this.backendPromise`, and `settled` the
outcome of every method call that finished. -/
structure System where
  TRIDENT : JSValue
  hubStorage : HubSlot
  listening : Bool
  trace : List Call
  created : List Nat
  listenerRuns : Nat
  backendPromise : Promise
  waiting : List Op
  settled : List Settled
  deriving Repr

/-- The method bodies after the `await`: `return backend.get(key)` and its
siblings, on the resolved backend. -/
def Backend.perform (b : Backend) (hub : HubSlot) :
    Op → Except JSError JSValue × Backend × HubSlot
  | .get key => b.get key hub
  | .set key value => b.set key value hub
  | .remove key => b.remove key hub
  | .clear => b.clear hub

/-- Continue one method call with the resolved backend. -/
def System.resume (s : System) (b : Backend) (o : Op) : System :=
  { s with
    backendPromise := .fulfilled (b.perform s.hubStorage o).2.1
    hubStorage := (b.perform s.hubStorage o).2.2
    settled := s.settled ++ [⟨o, some b.impl, (b.perform s.hubStorage o).1⟩] }

/-- A method call on the proxy: it awaits `backendPromise`, then forwards. -/
def System.invoke (s : System) (o : Op) : System :=
  match s.backendPromise with
  | .pending => { s with waiting := s.waiting ++ [o] }
  | .fulfilled b => s.resume b o
  | .rejected e => { s with settled := s.settled ++ [⟨o, none, .error e⟩] }

/-- `StorageProxy.get(key)`. -/
def StorageProxy.get (s : System) (key : String) : System := s.invoke (.get key)

/-- `StorageProxy.set(key, value)`. -/
def StorageProxy.set (s : System) (key : String) (value : JSData) : System :=
  s.invoke (.set key value)

/-- `StorageProxy.remove(key)`. -/
def StorageProxy.remove (s : System) (key : String) : System := s.invoke (.remove key)

/-- `StorageProxy.clear()`. -/
def StorageProxy.clear (s : System) : System := s.invoke .clear

/-- Fulfil `backendPromise` and continue the suspended method calls in the
order they were made. -/
def System.fulfil (s : System) (b : Backend) : System :=
  match s.backendPromise with
  | .pending =>
    s.waiting.foldl System.invoke { s with backendPromise := .fulfilled b, waiting := [] }
  | _ => s

/-- The constructor of `StorageProxy`: the body of the asynchronous function
assigned to `backendPromise`, which runs to its `return` at construction. -/
def StorageProxy.new (TRIDENT : JSValue) (hub : HubSlot) : System :=
  let s0 : System :=
    { TRIDENT := TRIDENT, hubStorage := hub, listening := false, trace := [],
      created := [], listenerRuns := 0, backendPromise := .pending, waiting := [],
      settled := [] }
  if !toBoolean TRIDENT then
    match testHubStorage hub with
    | (.error e, hub1) =>
      { s0 with hubStorage := hub1, trace := [.testHubStorage], backendPromise := .rejected e }
    | (.ok false, hub1) =>
      { s0 with
        hubStorage := hub1
        trace := [.testHubStorage,
                  .winset (.data .null) "browser-options" "+byondstorage",
                  .addEventListener "byondstorageupdated"]
        listening := true }
    | (.ok true, hub1) =>
      { s0 with
        hubStorage := hub1
        trace := [.testHubStorage]
        created := [HubStorageBackend.new.impl]
        backendPromise := .fulfilled (.hubStorage HubStorageBackend.new) }
  else
    { s0 with
      trace := [.warn "No supported storage backend found. Using in-memory storage."]
      created := [MemoryBackend.new.impl]
      backendPromise := .fulfilled (.memory MemoryBackend.new) }

/-- The event `byondstorageupdated` is dispatched on `document`: the listener,
when registered, removes itself and resolves with a new `HubStorageBackend`. -/
def System.dispatchReady (s : System) : System :=
  if s.listening then
    System.fulfil
      { s with
        listening := false
        listenerRuns := s.listenerRuns + 1
        trace := s.trace ++ [.removeEventListener "byondstorageupdated"]
        created := s.created ++ [HubStorageBackend.new.impl] }
      (.hubStorage HubStorageBackend.new)
  else s

/-- What can happen after construction: a caller invokes a method, the host
dispatches the readiness event, or the host changes `window.hubStorage`. -/
inductive Action
  | call (o : Op)
  | ready
  | host (hub : HubSlot)
  deriving Repr

def System.step (s : System) : Action → System
  | .call o => s.invoke o
  | .ready => s.dispatchReady
  | .host hub => { s with hubStorage := hub }

def System.run (s : System) (actions : List Action) : System :=
  actions.foldl System.step s

/-- How far `backendPromise` has come, with the `impl` of the backend it was
fulfilled with. -/
inductive Resolution
  | pending
  | fulfilled (impl : Nat)
  | rejected (e : JSError)
  deriving DecidableEq, Repr

def Promise.resolution : Promise → Resolution
  | .pending => .pending
  | .fulfilled b => .fulfilled b.impl
  | .rejected e => .rejected e

/-- The part of the state the selection writes. -/
structure Selection where
  listening : Bool
  trace : List Call
  created : List Nat
  listenerRuns : Nat
  resolution : Resolution
  deriving Repr

def System.selection (s : System) : Selection :=
  { listening := s.listening, trace := s.trace, created := s.created,
    listenerRuns := s.listenerRuns, resolution := s.backendPromise.resolution }

def Action.isReady : Action → Bool
  | .ready => true
  | _ => false

def Call.isProbe : Call → Bool
  | .testHubStorage => true
  | _ => false

/-- The selection state while the handshake is awaited. -/
def awaitingHandshake : Selection :=
  { listening := true
    trace := [.testHubStorage, .winset (.data .null) "browser-options" "+byondstorage",
              .addEventListener "byondstorageupdated"]
    created := []
    listenerRuns := 0
    resolution := .pending }

/-- The selection state once the readiness event has been handled. -/
def handshakeDone : Selection :=
  { listening := false
    trace := [.testHubStorage, .winset (.data .null) "browser-options" "+byondstorage",
              .addEventListener "byondstorageupdated",
              .removeEventListener "byondstorageupdated"]
    created := [IMPL_HUB_STORAGE]
    listenerRuns := 1
    resolution := .fulfilled IMPL_HUB_STORAGE }

/-- A proxy resolved to the bridge backend on a host that has since taken
`window.hubStorage` away. -/
def detachedHubSystem : System :=
  { StorageProxy.new (.data .null) (.attached []) with hubStorage := .absent }

/-- The text after a value inside an array or object, or the end of the
text: it starts with a comma or a closing bracket when it is not empty. -/
def Delimited (rest : List Char) : Prop :=
  ∀ c r, rest = c :: r → c = ',' ∨ c = ']' ∨ c = '}'

/-- A parse result on the text `cs` that did not use up the recursion bound
and, when it is a success, left a strictly shorter text. -/
def Consumes {α : Type} (res : Except JSError (α × List Char)) (cs : List Char) : Prop :=
  res ≠ .error .outOfFuel ∧ ∀ v rest, res = .ok (v, rest) → rest.length < cs.length

/-- The deletion `delete obj[key]`: an own property of that name is removed. -/
def JSObject.delete (obj : JSObject) (key : String) : JSObject :=
  { obj with props := obj.props.filter (fun p => p.1 != key) }

/-- The alternative to `remove` that the specification names, physically
deleting the key (`delete this.store[key]`).  It is not in the source and
stands here for comparison with `MemoryBackend.remove`. -/
def MemoryBackend.removeByDelete (b : MemoryBackend) (key : String) : MemoryBackend :=
  { b with store := b.store.delete key }

/-! ## Properties of the in-memory backend -/

theorem lookup_setOwn_self (ps : List (String × JSData)) (k : String) (v : JSData) :
    (setOwn ps k v).lookup k = some v := by
  induction ps with
  | nil => simp [setOwn, List.lookup]
  | cons p ps ih =>
    obtain ⟨k1, v1⟩ := p
    by_cases h : k1 = k
    · simp [setOwn, h, List.lookup]
    · have h2 : (k == k1) = false := by simpa using fun e => h e.symm
      simp [setOwn, h, List.lookup, h2, ih]

theorem lookup_setOwn_other (ps : List (String × JSData)) (k j : String) (v : JSData)
    (hjk : j ≠ k) : (setOwn ps k v).lookup j = ps.lookup j := by
  induction ps with
  | nil =>
    have h2 : (j == k) = false := by simpa using hjk
    simp [setOwn, List.lookup, h2]
  | cons p ps ih =>
    obtain ⟨k1, v1⟩ := p
    by_cases h : k1 = k
    · subst h
      have h2 : (j == k1) = false := by simpa using hjk
      simp [setOwn, List.lookup, h2]
    · by_cases h3 : j = k1
      · subst h3
        simp [setOwn, h, List.lookup]
      · have h4 : (j == k1) = false := by simpa using h3
        simp [setOwn, h, List.lookup, h4, ih]

theorem objectPrototypeSlot_accessor (key : String)
    (h : objectPrototypeSlot key = .protoAccessor) : key = "__proto__" := by
  unfold objectPrototypeSlot at h
  by_contra hne
  simp only [hne, if_false] at h
  split_ifs at h

theorem Proto.slot_accessor (p : Proto) (key : String)
    (h : p.slot key = .protoAccessor) : key = "__proto__" := by
  cases p with
  | null => simp [Proto.slot] at h
  | objectPrototype => exact objectPrototypeSlot_accessor key h
  | object props =>
    simp only [Proto.slot] at h
    split at h
    · cases h
    · exact objectPrototypeSlot_accessor key h
  | array elems =>
    simp only [Proto.slot] at h
    split at h
    · cases h
    · unfold arrayPrototypeSlot at h
      split_ifs at h
      exact objectPrototypeSlot_accessor key h

/-- For a key other than `__proto__`, `set` creates or overwrites an own
property. -/
theorem JSObject.set_of_ne (obj : JSObject) (key : String) (value : JSData)
    (hk : key ≠ "__proto__") :
    obj.set key value = { obj with props := setOwn obj.props key value } := by
  unfold JSObject.set
  split
  · rfl
  · split
    · rename_i h
      exact absurd (Proto.slot_accessor _ _ h) hk
    · rfl

/-- Round trip of the in-memory backend on every key other than `__proto__`. -/
theorem MemoryBackend.get_set_of_ne (b : MemoryBackend) (key : String) (value : JSData)
    (hk : key ≠ "__proto__") : (b.set key value).get key = .data value := by
  simp [MemoryBackend.get, MemoryBackend.set, JSObject.set_of_ne _ _ _ hk, JSObject.get,
    lookup_setOwn_self]

/-- Frame of `set` on every key other than `__proto__`: the other keys read as
before. -/
theorem MemoryBackend.get_set_other (b : MemoryBackend) (key j : String) (value : JSData)
    (hk : key ≠ "__proto__") (hj : j ≠ key) : (b.set key value).get j = b.get j := by
  simp [MemoryBackend.get, MemoryBackend.set, JSObject.set_of_ne _ _ _ hk, JSObject.get,
    lookup_setOwn_other _ _ _ _ hj]

/-- Frame of `remove` on every key: assigning `undefined` never changes what
another key reads. -/
theorem MemoryBackend.get_remove_other (b : MemoryBackend) (key j : String)
    (hj : j ≠ key) : (b.remove key).get j = b.get j := by
  by_cases hk : key = "__proto__"
  · subst hk
    unfold MemoryBackend.remove MemoryBackend.get JSObject.set
    split
    · simp [JSObject.get, lookup_setOwn_other _ _ _ _ hj]
    · split
      · rfl
      · simp [JSObject.get, lookup_setOwn_other _ _ _ _ hj]
  · exact MemoryBackend.get_set_other b key j .undefined hk hj

/-- After `remove(key)` with a key other than `__proto__`, `get(key)` is
`undefined`. -/
theorem MemoryBackend.get_remove_of_ne (b : MemoryBackend) (key : String)
    (hk : key ≠ "__proto__") : (b.remove key).get key = .data .undefined :=
  MemoryBackend.get_set_of_ne b key .undefined hk

/-- C1: on a fresh `MemoryBackend`, `set("__proto__", 5)` followed by
`get("__proto__")` yields `%Object.prototype%`, not the value 5: the
assignment reaches the `__proto__` setter inherited by the object literal, and
the setter ignores a value that is neither an object nor `null`. -/
theorem MemoryBackend.set_get_proto_key :
    (MemoryBackend.new.set "__proto__" (.number (.int 5))).get "__proto__"
        = .intrinsic "Object.prototype"
      ∧ (MemoryBackend.new.set "__proto__" (.number (.int 5))).get "__proto__"
        ≠ .data (.number (.int 5)) :=
  ⟨rfl, fun h => JSValue.noConfusion h⟩

/-- C2: on a fresh `MemoryBackend`, after `remove("__proto__")` the read
`get("__proto__")` still yields `%Object.prototype%` instead of `undefined`. -/
theorem MemoryBackend.remove_get_proto_key :
    (MemoryBackend.new.remove "__proto__").get "__proto__" = .intrinsic "Object.prototype"
      ∧ (MemoryBackend.new.remove "__proto__").get "__proto__" ≠ .data .undefined :=
  ⟨rfl, fun h => JSValue.noConfusion h⟩

/-- C3: on a fresh `MemoryBackend`, and on any instance right after `clear()`,
`get("constructor")` yields the intrinsic `Object` and `get("toString")` the
intrinsic `Object.prototype.toString`, not `undefined`: the object literal
inherits these properties. -/
theorem MemoryBackend.get_inherited_on_empty :
    MemoryBackend.new.get "constructor" = .intrinsic "Object"
      ∧ MemoryBackend.new.get "toString" = .intrinsic "Object.prototype.toString"
      ∧ (∀ b : MemoryBackend, b.clear.get "constructor" = .intrinsic "Object")
      ∧ MemoryBackend.new.get "constructor" ≠ .data .undefined :=
  ⟨rfl, rfl, fun _ => rfl, fun h => JSValue.noConfusion h⟩

theorem lookup_filter_ne (ps : List (String × JSData)) (key j : String) :
    (ps.filter (fun p => p.1 != key)).lookup j = if j = key then none else ps.lookup j := by
  induction ps with
  | nil => simp [List.lookup]
  | cons p ps ih =>
    obtain ⟨k1, v1⟩ := p
    by_cases h1 : k1 = key
    · subst h1
      by_cases h2 : j = k1
      · rw [List.filter_cons_of_neg (by simp), ih]
        simp [h2]
      · have h3 : (j == k1) = false := by simpa using h2
        simp [List.filter, ih, h2, List.lookup, h3]
    · have h4 : (k1 != key) = true := by simpa using h1
      by_cases h2 : j = k1
      · subst h2
        simp [List.filter, h4, List.lookup, h1]
      · have h3 : (j == k1) = false := by simpa using h2
        simp [List.filter, h4, List.lookup, h3, ih]

/-- Assigning `undefined` and deleting read alike on every key when the key
removed is not found on the prototype chain. -/
theorem MemoryBackend.remove_eq_delete_of_absent (b : MemoryBackend) (key j : String)
    (h : b.store.proto.slot key = .absent) :
    (b.remove key).get j = (b.removeByDelete key).get j := by
  have hset : b.store.set key .undefined
      = { b.store with props := setOwn b.store.props key .undefined } := by
    unfold JSObject.set
    split
    · rfl
    · rw [h]
  simp only [MemoryBackend.remove, MemoryBackend.get, MemoryBackend.removeByDelete, hset,
    JSObject.get, JSObject.delete, lookup_filter_ne]
  by_cases hj : j = key
  · subst hj
    simp [lookup_setOwn_self, h]
  · simp [lookup_setOwn_other _ _ _ _ hj, hj]

/-- On a key inherited from `%Object.prototype%` the two differ: after the
assignment of `undefined` the read is `undefined`, after a deletion it is the
inherited value. -/
theorem MemoryBackend.remove_ne_delete_inherited :
    (MemoryBackend.new.remove "constructor").get "constructor" = .data .undefined
      ∧ (MemoryBackend.new.removeByDelete "constructor").get "constructor"
          = .intrinsic "Object" :=
  ⟨rfl, rfl⟩

/-! ## Round trip of the JSON text -/

theorem stringUnit_escape_control (n : Nat) (h : n < 32) (rest : List Char) :
    stringUnit (escapeChar (Char.ofNat n) ++ rest) = .ok (some (Char.ofNat n), rest) := by
  interval_cases n <;> rfl

theorem escapeChar_plain (c : Char) (h1 : c ≠ '"') (h2 : c ≠ '\\') (h3 : ¬ c.toNat < 32) :
    escapeChar c = [c] := by
  have h4 : c ≠ '\x08' := by rintro rfl; exact h3 (by decide)
  have h5 : c ≠ '\x0c' := by rintro rfl; exact h3 (by decide)
  have h6 : c ≠ '\n' := by rintro rfl; exact h3 (by decide)
  have h7 : c ≠ '\r' := by rintro rfl; exact h3 (by decide)
  have h8 : c ≠ '\t' := by rintro rfl; exact h3 (by decide)
  simp [escapeChar, h1, h2, h3, h4, h5, h6, h7, h8]

theorem stringUnit_escape (c : Char) (rest : List Char) :
    stringUnit (escapeChar c ++ rest) = .ok (some c, rest) := by
  by_cases h3 : c.toNat < 32
  · have := stringUnit_escape_control c.toNat h3 rest
    rwa [Char.ofNat_toNat] at this
  · by_cases h1 : c = '"'
    · subst h1; rfl
    · by_cases h2 : c = '\\'
      · subst h2; rfl
      · rw [escapeChar_plain c h1 h2 h3]
        simp [stringUnit, h1, h2, h3]

theorem escapeChar_length (c : Char) : 1 ≤ (escapeChar c).length := by
  unfold escapeChar
  split_ifs <;> simp

theorem quoteBody_length (s : List Char) : s.length < (quoteBody s).length := by
  induction s with
  | nil => simp [quoteBody]
  | cons c cs ih =>
    have := escapeChar_length c
    simp only [quoteBody, List.length_append, List.length_cons]
    omega

theorem parseStringBody_quoteBody (s : List Char) (rest : List Char) (fuel : Nat)
    (h : s.length < fuel) : parseStringBody fuel (quoteBody s ++ rest) = .ok (s, rest) := by
  induction s generalizing fuel with
  | nil =>
    cases fuel with
    | zero => simp at h
    | succ f => rfl
  | cons c cs ih =>
    cases fuel with
    | zero => simp at h
    | succ f =>
      have hf : cs.length < f := by simpa using h
      simp only [quoteBody, List.append_assoc, parseStringBody, stringUnit_escape, ih f hf,
        consChar]

theorem parseString_quoteBody (s : List Char) (rest : List Char) :
    parseString (quoteBody s ++ rest) = .ok (s, rest) := by
  unfold parseString
  apply parseStringBody_quoteBody
  have := quoteBody_length s
  simp only [List.length_append]
  omega

theorem digit_toNat (d : Nat) (h : d < 10) : (Char.ofNat (48 + d)).toNat = 48 + d := by
  interval_cases d <;> rfl

theorem digit_isDigit (d : Nat) (h : d < 10) : isDigit (Char.ofNat (48 + d)) = true := by
  simp [isDigit, digit_toNat d h]
  omega

theorem digit_eq_zero (d : Nat) (h : d < 10) (h0 : Char.ofNat (48 + d) = '0') : d = 0 := by
  have := congrArg Char.toNat h0
  rw [digit_toNat d h] at this
  have h2 : ('0' : Char).toNat = 48 := rfl
  omega

theorem natDigits_isDigit (fuel n : Nat) : ∀ c ∈ natDigits fuel n, isDigit c = true := by
  induction fuel generalizing n with
  | zero => simp [natDigits]
  | succ f ih =>
    intro c hc
    unfold natDigits at hc
    split_ifs at hc with h
    · simp only [List.mem_singleton] at hc
      subst hc
      exact digit_isDigit n h
    · simp only [List.mem_append, List.mem_singleton] at hc
      rcases hc with hc | hc
      · exact ih _ c hc
      · subst hc
        exact digit_isDigit _ (Nat.mod_lt _ (by decide))

theorem digitsValue_append (ds : List Char) (c : Char) :
    digitsValue (ds ++ [c]) = 10 * digitsValue ds + (c.toNat - 48) := by
  simp [digitsValue, List.foldl_append]

theorem digitsValue_natDigits (fuel n : Nat) (h : n < fuel) :
    digitsValue (natDigits fuel n) = n := by
  induction fuel generalizing n with
  | zero => simp at h
  | succ f ih =>
    unfold natDigits
    split_ifs with h10
    · simp [digitsValue, digit_toNat n h10]
    · rw [digitsValue_append, ih (n / 10) (by omega),
        digit_toNat _ (Nat.mod_lt _ (by decide))]
      omega

theorem natDigits_head (fuel n : Nat) (h : n < fuel) :
    ∃ d ds, natDigits fuel n = d :: ds ∧ (d = '0' → n = 0 ∧ ds = []) := by
  induction fuel generalizing n with
  | zero => simp at h
  | succ f ih =>
    unfold natDigits
    split_ifs with h10
    · exact ⟨_, [], rfl, fun h0 => ⟨digit_eq_zero n h10 h0, rfl⟩⟩
    · obtain ⟨d, ds, hd, hz⟩ := ih (n / 10) (by omega)
      refine ⟨d, ds ++ [Char.ofNat (48 + n % 10)], by rw [hd]; rfl, fun h0 => ?_⟩
      have := (hz h0).1
      omega

theorem spanDigits_append (ds rest : List Char) (hds : ∀ c ∈ ds, isDigit c = true)
    (hrest : ∀ c r, rest = c :: r → isDigit c = false) :
    spanDigits (ds ++ rest) = (ds, rest) := by
  induction ds with
  | nil =>
    cases rest with
    | nil => rfl
    | cons c r => simp [spanDigits, hrest c r rfl]
  | cons d ds ih =>
    have hd := hds d (List.mem_cons_self _ _)
    have := ih (fun c hc => hds c (List.mem_cons_of_mem _ hc))
    simp [spanDigits, hd, this]

theorem delimited_not_digit (rest : List Char) (h : Delimited rest) :
    ∀ c r, rest = c :: r → isDigit c = false := by
  intro c r hc
  rcases h c r hc with h | h | h <;> subst h <;> rfl

theorem parseUnsigned_natDigits (negative : Bool) (n : Nat) (rest : List Char)
    (hrest : Delimited rest) :
    parseUnsigned negative (natDigits (n + 1) n ++ rest) = .ok (mkNumber negative n, rest) := by
  obtain ⟨d, ds, hd, hz⟩ := natDigits_head (n + 1) n (by omega)
  have hall := natDigits_isDigit (n + 1) n
  have hval := digitsValue_natDigits (n + 1) n (by omega)
  rw [hd] at hall hval ⊢
  have hdig : isDigit d = true := hall d (List.mem_cons_self _ _)
  have hsplit : (if d = '0' then ([d], ds ++ rest) else spanDigits (d :: (ds ++ rest)))
      = (d :: ds, rest) := by
    by_cases h0 : d = '0'
    · obtain ⟨_, hds⟩ := hz h0
      simp [h0, hds]
    · simp only [h0, if_false]
      exact spanDigits_append (d :: ds) rest hall (delimited_not_digit rest hrest)
  simp only [List.cons_append, parseUnsigned, hdig, if_true, hsplit, hval]
  cases rest with
  | nil => rfl
  | cons c r =>
    have hc : ¬ (c = '.' ∨ c = 'e' ∨ c = 'E') := by
      rcases hrest c r rfl with h | h | h <;> subst h <;> decide
    simp only [hc, if_false]

theorem intToString_head (n : Int) :
    ∃ c r, intToString n = c :: r ∧ (c = '-' ∨ isDigit c = true) := by
  unfold intToString
  split_ifs with h
  · exact ⟨_, _, rfl, Or.inl rfl⟩
  · obtain ⟨d, ds, hd, _⟩ := natDigits_head (n.natAbs + 1) n.natAbs (by omega)
    refine ⟨d, ds, hd, Or.inr ?_⟩
    exact natDigits_isDigit (n.natAbs + 1) n.natAbs d (by rw [hd]; exact List.mem_cons_self _ _)

theorem parseNumber_intToString (n : Int) (rest : List Char) (hrest : Delimited rest) :
    parseNumber (intToString n ++ rest) = .ok (.int n, rest) := by
  unfold intToString
  split_ifs with h
  · simp only [List.cons_append, parseNumber, if_true,
      parseUnsigned_natDigits true n.natAbs rest hrest]
    have h0 : n.natAbs ≠ 0 := by omega
    have h1 : -(n.natAbs : Int) = n := by omega
    simp only [mkNumber, h0, h1, if_true, if_false]
  · obtain ⟨d, ds, hd, _⟩ := natDigits_head (n.natAbs + 1) n.natAbs (by omega)
    have hdig : isDigit d = true :=
      natDigits_isDigit (n.natAbs + 1) n.natAbs d (by rw [hd]; exact List.mem_cons_self _ _)
    have hne : d ≠ '-' := by rintro rfl; simp [isDigit] at hdig
    have hp := parseUnsigned_natDigits false n.natAbs rest hrest
    rw [hd] at hp ⊢
    simp only [List.cons_append, parseNumber, hne, if_false] at hp ⊢
    rw [hp]
    have h1 : (n.natAbs : Int) = n := by omega
    simp only [mkNumber, h1, if_false, Bool.false_eq_true]

theorem numberStart (c : Char) (h : c = '-' ∨ isDigit c = true) :
    isWs c = false ∧ c ≠ ']' ∧ c ≠ '[' ∧ c ≠ '{' ∧ c ≠ '"' ∧ c ≠ 'n' ∧ c ≠ 't'
      ∧ c ≠ 'f' := by
  rcases h with h | h
  · subst h; decide
  · refine ⟨?_, ?_, ?_, ?_, ?_, ?_, ?_, ?_⟩
    · cases hw : isWs c with
      | false => rfl
      | true =>
        simp only [isWs, Bool.or_eq_true, decide_eq_true_eq] at hw
        rcases hw with ((hw | hw) | hw) | hw <;> subst hw <;> simp [isDigit] at h
    all_goals rintro rfl; simp [isDigit] at h

theorem skipWs_cons (c : Char) (r : List Char) (h : isWs c = false) :
    skipWs (c :: r) = c :: r := by
  simp [skipWs, h]

theorem serialize_isSome : ∀ v : JSData, v.isJSON = true → ∃ t, serialize v = some t
  | .undefined, h => by simp [JSData.isJSON] at h
  | .null, _ => ⟨_, by rw [serialize]⟩
  | .bool true, _ => ⟨_, by rw [serialize]⟩
  | .bool false, _ => ⟨_, by rw [serialize]⟩
  | .number _, _ => ⟨_, by rw [serialize]⟩
  | .string _, _ => ⟨_, by rw [serialize]⟩
  | .array _, _ => ⟨_, by rw [serialize]⟩
  | .object _, _ => ⟨_, by rw [serialize]⟩

/-- The text of a JSON-representable value starts with a character that is
neither whitespace nor a closing bracket. -/
theorem serialize_head (v : JSData) (t : List Char) (hj : v.isJSON = true)
    (hs : serialize v = some t) : ∃ c r, t = c :: r ∧ isWs c = false ∧ c ≠ ']' := by
  cases v with
  | undefined => simp [JSData.isJSON] at hj
  | null => simp only [serialize, Option.some.injEq] at hs; subst hs; exact ⟨_, _, rfl, by decide⟩
  | bool b =>
    cases b <;> simp only [serialize, Option.some.injEq] at hs <;> subst hs <;>
      exact ⟨_, _, rfl, by decide⟩
  | number n =>
    cases n with
    | int k =>
      simp only [serialize, numberToJSON, Option.some.injEq] at hs
      subst hs
      obtain ⟨c, r, hc, hstart⟩ := intToString_head k
      exact ⟨c, r, hc, (numberStart c hstart).1, (numberStart c hstart).2.1⟩
    | nan => simp [JSData.isJSON, JSNumber.isJSON] at hj
    | posInf => simp [JSData.isJSON, JSNumber.isJSON] at hj
    | negInf => simp [JSData.isJSON, JSNumber.isJSON] at hj
    | negZero => simp [JSData.isJSON, JSNumber.isJSON] at hj
  | string s =>
    simp only [serialize, quoteJSONString, Option.some.injEq] at hs
    subst hs
    exact ⟨_, _, rfl, by decide⟩
  | array xs =>
    simp only [serialize, Option.some.injEq] at hs
    subst hs
    exact ⟨_, _, rfl, by decide⟩
  | object ps =>
    simp only [serialize, Option.some.injEq] at hs
    subst hs
    exact ⟨_, _, rfl, by decide⟩

theorem setOwn_fresh (acc : List (String × JSData)) (k : String) (v : JSData)
    (h : k ∉ acc.map Prod.fst) : setOwn acc k v = acc ++ [(k, v)] := by
  induction acc with
  | nil => rfl
  | cons p acc ih =>
    obtain ⟨k1, v1⟩ := p
    simp only [List.map_cons, List.mem_cons, not_or] at h
    have hne : k1 ≠ k := fun e => h.1 e.symm
    simp [setOwn, hne, ih h.2]

theorem foldl_setOwn_nodup (ms acc : List (String × JSData))
    (h : ((acc ++ ms).map Prod.fst).Nodup) :
    ms.foldl (fun a m => setOwn a m.1 m.2) acc = acc ++ ms := by
  induction ms generalizing acc with
  | nil => simp
  | cons m ms ih =>
    have hfresh : m.1 ∉ acc.map Prod.fst := by
      intro hmem
      rw [List.map_append, List.map_cons] at h
      have := (List.nodup_append.mp h).2.2
      exact this hmem (List.mem_cons_self _ _)
    simp only [List.foldl_cons]
    rw [setOwn_fresh acc m.1 m.2 hfresh, ih]
    · simp
    · simpa using h

theorem buildObject_nodup (ps : List (String × JSData)) (h : (ps.map Prod.fst).Nodup) :
    buildObject ps = ps := by
  unfold buildObject
  rw [foldl_setOwn_nodup ps [] (by simpa using h)]
  rfl

theorem delimited_cons (c : Char) (r : List Char) (h : c = ',' ∨ c = ']' ∨ c = '}') :
    Delimited (c :: r) := by
  intro c1 r1 h1
  cases h1
  exact h

mutual
theorem parseValue_serialize : ∀ (v : JSData) (t rest : List Char) (fuel : Nat),
    v.isJSON = true → serialize v = some t → Delimited rest → t.length < fuel →
    parseValue fuel (t ++ rest) = .ok (v, rest)
  | .undefined, _, _, _, hj, _, _, _ => by simp [JSData.isJSON] at hj
  | .null, t, rest, fuel, _, hs, _, hf => by
    simp only [serialize, Option.some.injEq] at hs
    subst hs
    cases fuel with
    | zero => simp at hf
    | succ f => rfl
  | .bool true, t, rest, fuel, _, hs, _, hf => by
    simp only [serialize, Option.some.injEq] at hs
    subst hs
    cases fuel with
    | zero => simp at hf
    | succ f => rfl
  | .bool false, t, rest, fuel, _, hs, _, hf => by
    simp only [serialize, Option.some.injEq] at hs
    subst hs
    cases fuel with
    | zero => simp at hf
    | succ f => rfl
  | .number n, t, rest, fuel, hj, hs, hd, hf => by
    cases n with
    | int k =>
      simp only [serialize, numberToJSON, Option.some.injEq] at hs
      subst hs
      cases fuel with
      | zero => simp at hf
      | succ f =>
        have hp := parseNumber_intToString k rest hd
        obtain ⟨c, r, hc, hstart⟩ := intToString_head k
        obtain ⟨h1, _, h3, h4, h5, h6, h7, h8⟩ := numberStart c hstart
        rw [hc] at hp ⊢
        simp only [List.cons_append] at hp ⊢
        simp only [parseValue, skipWs_cons c _ h1, h3, h4, h5, h6, h7, h8, if_false, hp]
    | nan => simp [JSData.isJSON, JSNumber.isJSON] at hj
    | posInf => simp [JSData.isJSON, JSNumber.isJSON] at hj
    | negInf => simp [JSData.isJSON, JSNumber.isJSON] at hj
    | negZero => simp [JSData.isJSON, JSNumber.isJSON] at hj
  | .string s, t, rest, fuel, _, hs, _, hf => by
    simp only [serialize, quoteJSONString, Option.some.injEq] at hs
    subst hs
    cases fuel with
    | zero => simp at hf
    | succ f =>
      have hq := parseString_quoteBody s.data rest
      have hw : isWs '"' = false := by decide
      have h1 : ('"' : Char) ≠ '[' := by decide
      have h2 : ('"' : Char) ≠ '{' := by decide
      simp only [List.cons_append, parseValue, skipWs_cons _ _ hw, h1, h2, if_false, if_true, hq]
  | .array xs, t, rest, fuel, hj, hs, _, hf => by
    have ih := parseElems_serialize xs rest
    simp only [serialize, Option.some.injEq] at hs
    subst hs
    cases fuel with
    | zero => simp at hf
    | succ f =>
      have hw : isWs '[' = false := by decide
      simp only [List.cons_append, List.append_assoc, parseValue, skipWs_cons _ _ hw, if_true]
      cases xs with
      | nil => rfl
      | cons x xs1 =>
        simp only [JSData.isJSON] at hj
        have hx : x.isJSON = true := by
          simp only [allJSON, Bool.and_eq_true] at hj
          exact hj.1
        obtain ⟨tx, htx⟩ := serialize_isSome x hx
        obtain ⟨c, r, hc, hcw, hcb⟩ := serialize_head x tx hx htx
        have ih2 := ih f hj (by simp) (by
          simp only [List.length_cons, List.length_append, List.length_singleton] at hf
          omega)
        have hstart : ∃ r2, joinComma (serializeElems (x :: xs1)) = c :: r2 := by
          cases xs1 with
          | nil => exact ⟨r, by simp [serializeElems, joinComma, htx, hc]⟩
          | cons y ys => exact ⟨_, by simp [serializeElems, joinComma, htx, hc]; rfl⟩
        obtain ⟨r2, hr2⟩ := hstart
        rw [hr2] at ih2 ⊢
        simp only [List.cons_append, List.singleton_append, List.nil_append] at ih2 ⊢
        simp only [skipWs_cons _ _ hcw, hcb, if_false, ih2]
  | .object ps, t, rest, fuel, hj, hs, _, hf => by
    have ih := parseMembers_serialize ps rest
    simp only [serialize, Option.some.injEq] at hs
    subst hs
    cases fuel with
    | zero => simp at hf
    | succ f =>
      have hw : isWs '{' = false := by decide
      have h1 : ('{' : Char) ≠ '[' := by decide
      simp only [List.cons_append, List.append_assoc, parseValue, skipWs_cons _ _ hw, h1,
        if_true, if_false]
      simp only [JSData.isJSON, Bool.and_eq_true, decide_eq_true_eq] at hj
      cases ps with
      | nil => rfl
      | cons p ps1 =>
        obtain ⟨k, x⟩ := p
        have hx : x.isJSON = true := by
          have := hj.1
          simp only [propsJSON, Bool.and_eq_true] at this
          exact this.1
        obtain ⟨tx, htx⟩ := serialize_isSome x hx
        have ih2 := ih f hj.1 (by simp) (by
          simp only [List.length_cons, List.length_append, List.length_singleton] at hf
          omega)
        have hstart : ∃ r2, joinComma (serializeProps ((k, x) :: ps1)) = '"' :: r2 := by
          cases hps : serializeProps ps1 with
          | nil => exact ⟨_, by simp [serializeProps, joinComma, htx, hps, quoteJSONString]; rfl⟩
          | cons y ys =>
            exact ⟨_, by simp [serializeProps, joinComma, htx, hps, quoteJSONString]; rfl⟩
        obtain ⟨r2, hr2⟩ := hstart
        rw [hr2] at ih2 ⊢
        have hq : isWs '"' = false := by decide
        have hqb : ('"' : Char) ≠ '}' := by decide
        simp only [List.cons_append, List.singleton_append, List.nil_append] at ih2 ⊢
        simp only [skipWs_cons _ _ hq, hqb, if_false, ih2, buildObject_nodup _ hj.2]
theorem parseElems_serialize : ∀ (xs : List JSData) (rest : List Char) (fuel : Nat),
    allJSON xs = true → xs ≠ [] → (joinComma (serializeElems xs)).length + 1 < fuel →
    parseElems fuel (joinComma (serializeElems xs) ++ ']' :: rest) = .ok (xs, rest)
  | [], _, _, _, hne, _ => absurd rfl hne
  | x :: xs1, rest, fuel, hj, _, hf => by
    have ihx := parseValue_serialize x
    have ihs := parseElems_serialize xs1 rest
    simp only [allJSON, Bool.and_eq_true] at hj
    obtain ⟨tx, htx⟩ := serialize_isSome x hj.1
    cases fuel with
    | zero => simp at hf
    | succ f =>
      cases xs1 with
      | nil =>
        simp only [serializeElems, htx, Option.getD_some, joinComma] at hf ⊢
        have hv := ihx tx (']' :: rest) f hj.1 htx (delimited_cons _ _ (by simp)) (by omega)
        have hw : isWs ']' = false := by decide
        have hc : (']' : Char) ≠ ',' := by decide
        simp only [parseElems, hv, skipWs_cons _ _ hw, hc, if_false, if_true]
      | cons y ys =>
        simp only [serializeElems, htx, Option.getD_some, joinComma, List.length_append,
          List.length_cons] at hf
        have hv := ihx tx (',' :: (joinComma (serializeElems (y :: ys)) ++ ']' :: rest)) f
          hj.1 htx (delimited_cons _ _ (by simp)) (by omega)
        have hl := ihs f hj.2 (by simp) (by
          simp only [serializeElems]
          omega)
        have hw : isWs ',' = false := by decide
        have heq : joinComma (serializeElems (x :: y :: ys)) ++ ']' :: rest
            = tx ++ ',' :: (joinComma (serializeElems (y :: ys)) ++ ']' :: rest) := by
          simp [serializeElems, htx, joinComma]
        rw [heq]
        simp only [parseElems, hv, skipWs_cons _ _ hw, if_true, hl]
theorem parseMembers_serialize : ∀ (ps : List (String × JSData)) (rest : List Char)
    (fuel : Nat),
    propsJSON ps = true → ps ≠ [] → (joinComma (serializeProps ps)).length + 1 < fuel →
    parseMembers fuel (joinComma (serializeProps ps) ++ '}' :: rest) = .ok (ps, rest)
  | [], _, _, _, hne, _ => absurd rfl hne
  | (k, x) :: ps1, rest, fuel, hj, _, hf => by
    have ihx := parseValue_serialize x
    have ihs := parseMembers_serialize ps1 rest
    simp only [propsJSON, Bool.and_eq_true] at hj
    obtain ⟨tx, htx⟩ := serialize_isSome x hj.1
    have hq : isWs '"' = false := by decide
    have hcol : isWs ':' = false := by decide
    cases fuel with
    | zero => simp at hf
    | succ f =>
      cases ps1 with
      | nil =>
        simp only [serializeProps, htx, joinComma, List.length_append, List.length_cons,
          quoteJSONString] at hf
        have hv := ihx tx ('}' :: rest) f hj.1 htx (delimited_cons _ _ (by simp)) (by omega)
        have hw : isWs '}' = false := by decide
        have hc : ('}' : Char) ≠ ',' := by decide
        have heq : joinComma (serializeProps [(k, x)]) ++ '}' :: rest
            = '"' :: (quoteBody k.data ++ ':' :: (tx ++ '}' :: rest)) := by
          simp [serializeProps, htx, joinComma, quoteJSONString]
        rw [heq]
        simp only [parseMembers, skipWs_cons _ _ hq, if_true, parseString_quoteBody,
          skipWs_cons _ _ hcol, hv, skipWs_cons _ _ hw, hc, if_false]
      | cons p ps2 =>
        obtain ⟨k2, y⟩ := p
        have hy : y.isJSON = true := by
          have := hj.2
          simp only [propsJSON, Bool.and_eq_true] at this
          exact this.1
        obtain ⟨ty, hty⟩ := serialize_isSome y hy
        have hsplit : joinComma (serializeProps ((k, x) :: (k2, y) :: ps2))
            = quoteJSONString k ++ ':' :: tx
              ++ ',' :: joinComma (serializeProps ((k2, y) :: ps2)) := by
          simp only [serializeProps, htx, hty, joinComma]
        rw [hsplit] at hf ⊢
        simp only [List.length_append, List.length_cons, quoteJSONString] at hf
        have hv := ihx tx (',' :: (joinComma (serializeProps ((k2, y) :: ps2)) ++ '}' :: rest))
          f hj.1 htx (delimited_cons _ _ (by simp)) (by omega)
        have hl := ihs f hj.2 (by simp) (by omega)
        have hw : isWs ',' = false := by decide
        have heq : quoteJSONString k ++ ':' :: tx
              ++ ',' :: joinComma (serializeProps ((k2, y) :: ps2)) ++ '}' :: rest
            = '"' :: (quoteBody k.data ++ ':' :: (tx ++
                ',' :: (joinComma (serializeProps ((k2, y) :: ps2)) ++ '}' :: rest))) := by
          simp [quoteJSONString]
        rw [heq]
        simp only [parseMembers, skipWs_cons _ _ hq, if_true, parseString_quoteBody,
          skipWs_cons _ _ hcol, hv, skipWs_cons _ _ hw, hl]
end

/-! ## The recursion bound of the parser is never used up -/

theorem skipWs_length (cs : List Char) : (skipWs cs).length ≤ cs.length := by
  induction cs with
  | nil => simp [skipWs]
  | cons c cs ih =>
    unfold skipWs
    split_ifs
    · simp only [List.length_cons]; omega
    · exact Nat.le_refl _

theorem skipWs_cons_length (cs r : List Char) (c : Char) (h : skipWs cs = c :: r) :
    r.length < cs.length := by
  have := skipWs_length cs
  rw [h] at this
  simp only [List.length_cons] at this
  omega

theorem dropPrefix_length (p cs r : List Char) (h : dropPrefix p cs = some r) :
    r.length ≤ cs.length := by
  induction p generalizing cs with
  | nil => simp [dropPrefix] at h; subst h; exact Nat.le_refl _
  | cons a p ih =>
    cases cs with
    | nil => simp [dropPrefix] at h
    | cons c cs =>
      simp only [dropPrefix] at h
      split_ifs at h
      have := ih cs h
      simp only [List.length_cons]
      omega

theorem unicodeEscape_length (cs rest : List Char) (ch : Char)
    (h : unicodeEscape cs = .ok (ch, rest)) : rest.length < cs.length := by
  unfold unicodeEscape at h
  split at h
  · split at h
    · cases h
    · split_ifs at h
      · split at h
        · split_ifs at h
          split at h
          · cases h
          · split_ifs at h
            simp only [Except.ok.injEq, Prod.mk.injEq] at h
            rw [← h.2]
            simp only [List.length_cons]
            omega
        · cases h
      · simp only [Except.ok.injEq, Prod.mk.injEq] at h
        rw [← h.2]
        simp only [List.length_cons]
        omega
  · cases h

theorem stringUnit_length (cs rest : List Char) (u : Option Char)
    (h : stringUnit cs = .ok (u, rest)) : rest.length < cs.length := by
  unfold stringUnit at h
  split at h
  · cases h
  · split_ifs at h
    · simp only [Except.ok.injEq, Prod.mk.injEq] at h
      rw [← h.2]
      simp
    · split at h
      · cases h
      · split_ifs at h
        · split at h
          · rename_i hu
            simp only [Except.ok.injEq, Prod.mk.injEq] at h
            have := unicodeEscape_length _ _ _ hu
            rw [← h.2]
            simp only [List.length_cons]
            omega
          · cases h
        · split at h
          · simp only [Except.ok.injEq, Prod.mk.injEq] at h
            rw [← h.2]
            simp only [List.length_cons]
            omega
          · cases h
    · simp only [Except.ok.injEq, Prod.mk.injEq] at h
      rw [← h.2]
      simp

theorem unicodeEscape_fuel (cs : List Char) : unicodeEscape cs ≠ .error .outOfFuel := by
  unfold unicodeEscape
  intro h
  repeat' split at h
  all_goals cases h

theorem stringUnit_fuel (cs : List Char) : stringUnit cs ≠ .error .outOfFuel := by
  unfold stringUnit
  intro h
  split at h
  · cases h
  · split_ifs at h
    · split at h
      · cases h
      · split_ifs at h
        · split at h
          · cases h
          · rename_i hu
            simp only [Except.error.injEq] at h
            subst h
            exact unicodeEscape_fuel _ hu
        · split at h <;> cases h
    · cases h

theorem consChar_ok (c : Char) (res : Except JSError (List Char × List Char))
    (s rest : List Char) (h : consChar c res = .ok (s, rest)) :
    ∃ s1, res = .ok (s1, rest) := by
  cases res with
  | error e => cases h
  | ok p =>
    obtain ⟨s1, r1⟩ := p
    simp only [consChar, Except.ok.injEq, Prod.mk.injEq] at h
    exact ⟨s1, by rw [h.2]⟩

theorem consChar_error (c : Char) (res : Except JSError (List Char × List Char))
    (e : JSError) (h : consChar c res = .error e) : res = .error e := by
  cases res with
  | error e1 => simpa [consChar] using h
  | ok p => cases h

theorem parseStringBody_sound (fuel : Nat) (cs : List Char) (hf : cs.length < fuel) :
    parseStringBody fuel cs ≠ .error .outOfFuel
      ∧ ∀ s rest, parseStringBody fuel cs = .ok (s, rest) → rest.length < cs.length := by
  induction fuel generalizing cs with
  | zero => simp at hf
  | succ f ih =>
    unfold parseStringBody
    split
    · rename_i e he
      refine ⟨?_, fun s rest h => (by cases h)⟩
      intro h
      simp only [Except.error.injEq] at h
      subst h
      exact stringUnit_fuel cs he
    · rename_i rest0 he
      have hl := stringUnit_length _ _ _ he
      refine ⟨fun h => (by cases h), fun s rest h => ?_⟩
      simp only [Except.ok.injEq, Prod.mk.injEq] at h
      rw [← h.2]
      exact hl
    · rename_i ch rest0 he
      have hl := stringUnit_length _ _ _ he
      obtain ⟨i1, i2⟩ := ih rest0 (by omega)
      refine ⟨fun h => i1 (consChar_error _ _ _ h), fun s rest h => ?_⟩
      obtain ⟨s1, hs1⟩ := consChar_ok _ _ _ _ h
      have := i2 s1 rest hs1
      omega

theorem parseString_sound (cs : List Char) :
    parseString cs ≠ .error .outOfFuel
      ∧ ∀ s rest, parseString cs = .ok (s, rest) → rest.length < cs.length :=
  parseStringBody_sound (cs.length + 1) cs (by omega)

theorem spanDigits_length (cs : List Char) : (spanDigits cs).2.length ≤ cs.length := by
  induction cs with
  | nil => simp [spanDigits]
  | cons c cs ih =>
    unfold spanDigits
    split_ifs
    · simp only [List.length_cons]; omega
    · exact Nat.le_refl _

theorem parseUnsigned_sound (negative : Bool) (cs : List Char) :
    parseUnsigned negative cs ≠ .error .outOfFuel
      ∧ ∀ n rest, parseUnsigned negative cs = .ok (n, rest) → rest.length < cs.length := by
  cases cs with
  | nil => exact ⟨fun h => (by cases h), fun n rest h => (by cases h)⟩
  | cons d r =>
    unfold parseUnsigned
    by_cases hd : isDigit d = true
    · simp only [hd, if_true]
      have hlen : (if d = '0' then ([d], r) else spanDigits (d :: r)).2.length ≤ r.length := by
        split_ifs
        · exact Nat.le_refl _
        · simp only [spanDigits, hd, if_true]
          exact spanDigits_length r
      generalize (if d = '0' then ([d], r) else spanDigits (d :: r)) = split at hlen
      cases hs : split.2 with
      | nil =>
        refine ⟨fun h => (by cases h), fun n rest h => ?_⟩
        simp only [Except.ok.injEq, Prod.mk.injEq] at h
        rw [← h.2]
        simp
      | cons c r1 =>
        rw [hs] at hlen
        simp only
        split_ifs
        · exact ⟨fun h => (by cases h), fun n rest h => (by cases h)⟩
        · refine ⟨fun h => (by cases h), fun n rest h => ?_⟩
          simp only [Except.ok.injEq, Prod.mk.injEq] at h
          rw [← h.2]
          simp only [List.length_cons] at hlen ⊢
          omega
    · simp only [hd, if_false, Bool.false_eq_true]
      exact ⟨fun h => (by cases h), fun n rest h => (by cases h)⟩

theorem parseNumber_sound (cs : List Char) :
    parseNumber cs ≠ .error .outOfFuel
      ∧ ∀ n rest, parseNumber cs = .ok (n, rest) → rest.length < cs.length := by
  cases cs with
  | nil => exact ⟨fun h => (by cases h), fun n rest h => (by cases h)⟩
  | cons c r =>
    simp only [parseNumber]
    split_ifs
    · obtain ⟨h1, h2⟩ := parseUnsigned_sound true r
      refine ⟨h1, fun n rest h => ?_⟩
      have := h2 n rest h
      simp only [List.length_cons]
      omega
    · exact parseUnsigned_sound false (c :: r)

theorem Consumes.error {α : Type} (e : JSError) (cs : List Char) (h : e ≠ .outOfFuel) :
    Consumes (.error e : Except JSError (α × List Char)) cs :=
  ⟨fun h1 => h (by cases h1; rfl), fun _ _ h1 => (by cases h1)⟩

theorem Consumes.ok {α : Type} (v : α) (rest cs : List Char) (h : rest.length < cs.length) :
    Consumes (.ok (v, rest) : Except JSError (α × List Char)) cs :=
  ⟨fun h1 => (by cases h1), fun _ _ h1 => (by cases h1; exact h)⟩

theorem Consumes.mono {α : Type} (res : Except JSError (α × List Char)) (cs1 cs : List Char)
    (h : Consumes res cs1) (hl : cs1.length ≤ cs.length) : Consumes res cs :=
  ⟨h.1, fun v rest h1 => Nat.lt_of_lt_of_le (h.2 v rest h1) hl⟩

theorem Consumes.of_map {α β : Type} (res : Except JSError (α × List Char))
    (res1 : Except JSError (β × List Char)) (cs1 cs : List Char) (h : Consumes res cs1)
    (hl : cs1.length ≤ cs.length) (herr : ∀ e, res = .error e → res1 = .error e)
    (hok : ∀ x r, res = .ok (x, r) → ∃ y, res1 = .ok (y, r)) : Consumes res1 cs := by
  cases res with
  | error e =>
    rw [herr e rfl]
    exact Consumes.error e cs (fun he => h.1 (by rw [he]))
  | ok p =>
    obtain ⟨x, r⟩ := p
    obtain ⟨y, hy⟩ := hok x r rfl
    rw [hy]
    exact Consumes.ok _ _ _ (Nat.lt_of_lt_of_le (h.2 x r rfl) hl)

theorem parseString_consumes (cs : List Char) : Consumes (parseString cs) cs :=
  parseString_sound cs

theorem parseNumber_consumes (cs : List Char) : Consumes (parseNumber cs) cs :=
  parseNumber_sound cs

theorem parseValue_step (f : Nat)
    (ihE : ∀ cs, 2 * cs.length + 2 ≤ f → Consumes (parseElems f cs) cs)
    (ihM : ∀ cs, 2 * cs.length + 2 ≤ f → Consumes (parseMembers f cs) cs)
    (cs : List Char) (hf : 2 * cs.length ≤ f) : Consumes (parseValue (f + 1) cs) cs := by
  rw [parseValue]
  split
  · exact Consumes.error _ _ (by decide)
  · rename_i c r hc
    have hr := skipWs_cons_length cs r c hc
    split_ifs
    · split
      · exact Consumes.error _ _ (by decide)
      · rename_i d r1 hd
        have hr1 := skipWs_cons_length r r1 d hd
        split_ifs
        · exact Consumes.ok _ _ _ (by omega)
        · have := ihE (d :: r1) (by simp only [List.length_cons]; omega)
          exact Consumes.of_map _ _ _ _ this (by simp only [List.length_cons]; omega)
            (fun e he => by rw [he]) (fun x r2 he => ⟨_, by rw [he]⟩)
    · split
      · exact Consumes.error _ _ (by decide)
      · rename_i d r1 hd
        have hr1 := skipWs_cons_length r r1 d hd
        split_ifs
        · exact Consumes.ok _ _ _ (by omega)
        · have := ihM (d :: r1) (by simp only [List.length_cons]; omega)
          exact Consumes.of_map _ _ _ _ this (by simp only [List.length_cons]; omega)
            (fun e he => by rw [he]) (fun x r2 he => ⟨_, by rw [he]⟩)
    · exact Consumes.of_map _ _ _ _ (parseString_consumes r) (by omega)
        (fun e he => by rw [he]) (fun x r2 he => ⟨_, by rw [he]⟩)
    · split
      · rename_i r1 h1
        have := dropPrefix_length _ _ _ h1
        exact Consumes.ok _ _ _ (by omega)
      · exact Consumes.error _ _ (by decide)
    · split
      · rename_i r1 h1
        have := dropPrefix_length _ _ _ h1
        exact Consumes.ok _ _ _ (by omega)
      · exact Consumes.error _ _ (by decide)
    · split
      · rename_i r1 h1
        have := dropPrefix_length _ _ _ h1
        exact Consumes.ok _ _ _ (by omega)
      · exact Consumes.error _ _ (by decide)
    · exact Consumes.of_map _ _ _ _ (parseNumber_consumes (c :: r))
        (by simp only [List.length_cons]; omega)
        (fun e he => by rw [he]) (fun x r2 he => ⟨_, by rw [he]⟩)

theorem parseElems_step (f : Nat)
    (ihV : ∀ cs, 2 * cs.length + 1 ≤ f → Consumes (parseValue f cs) cs)
    (ihE : ∀ cs, 2 * cs.length + 2 ≤ f → Consumes (parseElems f cs) cs)
    (cs : List Char) (hf : 2 * cs.length + 1 ≤ f) : Consumes (parseElems (f + 1) cs) cs := by
  rw [parseElems]
  have hv := ihV cs hf
  split
  · rename_i e he
    rw [he] at hv
    exact ⟨fun h => hv.1 (by cases h; rfl), fun _ _ h => (by cases h)⟩
  · rename_i v r he
    have hr := hv.2 v r he
    split
    · exact Consumes.error _ _ (by decide)
    · rename_i d r1 hd
      have hr1 := skipWs_cons_length r r1 d hd
      split_ifs
      · have := ihE r1 (by omega)
        exact Consumes.of_map _ _ _ _ this (by omega)
          (fun e he => by rw [he]) (fun x r2 he => ⟨_, by rw [he]⟩)
      · exact Consumes.ok _ _ _ (by omega)
      · exact Consumes.error _ _ (by decide)

theorem parseMembers_step (f : Nat)
    (ihV : ∀ cs, 2 * cs.length + 1 ≤ f → Consumes (parseValue f cs) cs)
    (ihM : ∀ cs, 2 * cs.length + 2 ≤ f → Consumes (parseMembers f cs) cs)
    (cs : List Char) (hf : 2 * cs.length + 1 ≤ f) : Consumes (parseMembers (f + 1) cs) cs := by
  rw [parseMembers]
  split
  · exact Consumes.error _ _ (by decide)
  · rename_i q r hq
    have hr := skipWs_cons_length cs r q hq
    split_ifs
    · have hs := parseString_consumes r
      split
      · rename_i e he
        rw [he] at hs
        exact ⟨fun h => hs.1 (by cases h; rfl), fun _ _ h => (by cases h)⟩
      · rename_i k r1 hk
        have hr1 := hs.2 k r1 hk
        split
        · exact Consumes.error _ _ (by decide)
        · rename_i col r2 hcol
          have hr2 := skipWs_cons_length r1 r2 col hcol
          split_ifs
          · have hv := ihV r2 (by omega)
            split
            · rename_i e he
              rw [he] at hv
              exact ⟨fun h => hv.1 (by cases h; rfl), fun _ _ h => (by cases h)⟩
            · rename_i v r3 he
              have hr3 := hv.2 v r3 he
              split
              · exact Consumes.error _ _ (by decide)
              · rename_i d r4 hd
                have hr4 := skipWs_cons_length r3 r4 d hd
                split_ifs
                · have := ihM r4 (by omega)
                  exact Consumes.of_map _ _ _ _ this (by omega)
                    (fun e he => by rw [he]) (fun x r2 he => ⟨_, by rw [he]⟩)
                · exact Consumes.ok _ _ _ (by omega)
                · exact Consumes.error _ _ (by decide)
          · exact Consumes.error _ _ (by decide)
    · exact Consumes.error _ _ (by decide)

theorem parse_consumes (fuel : Nat) :
    (∀ cs, 2 * cs.length + 1 ≤ fuel → Consumes (parseValue fuel cs) cs)
      ∧ (∀ cs, 2 * cs.length + 2 ≤ fuel → Consumes (parseElems fuel cs) cs)
      ∧ (∀ cs, 2 * cs.length + 2 ≤ fuel → Consumes (parseMembers fuel cs) cs) := by
  induction fuel with
  | zero => exact ⟨fun cs h => (by omega), fun cs h => (by omega), fun cs h => (by omega)⟩
  | succ f ih =>
    obtain ⟨ihV, ihE, ihM⟩ := ih
    exact ⟨fun cs h => parseValue_step f ihE ihM cs (by omega),
      fun cs h => parseElems_step f ihV ihE cs (by omega),
      fun cs h => parseMembers_step f ihV ihM cs (by omega)⟩

/-- `JSON.parse` never uses up its recursion bound: it returns a value or
throws one of the modelled exceptions. -/
theorem JSON.parse_total (text : String) : JSON.parse text ≠ .error .outOfFuel := by
  have h := (parse_consumes (2 * text.data.length + 2)).1 text.data (by omega)
  unfold JSON.parse
  split
  · rename_i e he
    rw [he] at h
    exact fun h1 => h.1 (by cases h1; rfl)
  · split
    · exact fun h1 => (by cases h1)
    · exact fun h1 => (by cases h1)

/-! ## The bridge backend -/

/-- C10: `testGeneric(f)()` never throws; it returns `true` exactly when `f`
returns a truthy value, `false` whenever `f` throws, and the state it leaves
is the one left by a single call of `f`, which a call counter records as one
invocation. -/
theorem testGeneric_spec {σ ε : Type} (f : σ → Except ε JSValue × σ) (s : σ) :
    (∃ b, (testGeneric f s).1 = .ok b)
      ∧ ((testGeneric f s).1 = .ok true ↔ ∃ v, (f s).1 = .ok v ∧ toBoolean v = true)
      ∧ (∀ e, (f s).1 = .error e → (testGeneric f s).1 = .ok false)
      ∧ (testGeneric f s).2 = (f s).2
      ∧ ∀ n, (testGeneric (counted f) (s, n)).2.2 = n + 1 := by
  refine ⟨?_, ?_, ?_, ?_, ?_⟩
  · unfold testGeneric
    rcases h : f s with ⟨r, s1⟩
    cases r <;> simp
  · unfold testGeneric
    rcases h : f s with ⟨r, s1⟩
    cases r <;> simp
  · intro e he
    unfold testGeneric
    rcases h : f s with ⟨r, s1⟩
    rw [h] at he
    cases r with
    | ok v => cases he
    | error e1 => rfl
  · unfold testGeneric
    rcases h : f s with ⟨r, s1⟩
    cases r <;> rfl
  · intro n
    unfold testGeneric counted
    rcases h : f s with ⟨r, s1⟩
    cases r <;> simp [h]

/-! ## Properties of the selection and the proxy -/

theorem Backend.perform_impl (b : Backend) (hub : HubSlot) (o : Op) :
    (b.perform hub o).2.1.impl = b.impl := by
  cases b <;> cases o <;> rfl

theorem System.invoke_selection (s : System) (o : Op) :
    (s.invoke o).selection = s.selection := by
  unfold System.invoke
  cases h : s.backendPromise <;>
    simp [System.selection, System.resume, h, Promise.resolution, Backend.perform_impl]

theorem System.foldl_invoke_selection (ops : List Op) (s : System) :
    (ops.foldl System.invoke s).selection = s.selection := by
  induction ops generalizing s with
  | nil => rfl
  | cons o ops ih => simp [List.foldl, ih, System.invoke_selection]

theorem System.dispatchReady_idle (s : System) (h : s.listening = false) :
    s.dispatchReady = s := by
  simp [System.dispatchReady, h]

theorem System.dispatchReady_selection (s : System) (h : s.listening = true)
    (hp : s.backendPromise = .pending) :
    s.dispatchReady.selection =
      { listening := false
        trace := s.trace ++ [.removeEventListener "byondstorageupdated"]
        created := s.created ++ [IMPL_HUB_STORAGE]
        listenerRuns := s.listenerRuns + 1
        resolution := .fulfilled IMPL_HUB_STORAGE } := by
  simp only [System.dispatchReady, h, if_true, System.fulfil, hp]
  rw [System.foldl_invoke_selection]
  rfl

theorem Promise.resolution_pending (p : Promise) (h : p.resolution = .pending) :
    p = .pending := by
  cases p <;> simp [Promise.resolution] at h ⊢

theorem System.step_selection_of_not_ready (s : System) (a : Action)
    (ha : a.isReady = false) : (s.step a).selection = s.selection := by
  cases a with
  | call o => exact System.invoke_selection s o
  | ready => simp [Action.isReady] at ha
  | host hub => rfl

theorem System.run_awaiting (actions : List Action) (s : System)
    (hs : s.selection = awaitingHandshake) (hno : ∀ a ∈ actions, a.isReady = false) :
    (s.run actions).selection = awaitingHandshake := by
  induction actions generalizing s with
  | nil => exact hs
  | cons a actions ih =>
    simp only [System.run, List.foldl]
    apply ih
    · rw [System.step_selection_of_not_ready s a (hno a (List.mem_cons_self _ _)), hs]
    · intro b hb
      exact hno b (List.mem_cons_of_mem _ hb)

theorem System.step_done (s : System) (a : Action) (hs : s.selection = handshakeDone) :
    (s.step a).selection = handshakeDone := by
  cases a with
  | call o => rw [← hs]; exact System.invoke_selection s o
  | ready =>
    have hl : s.listening = false := congrArg Selection.listening hs
    simp only [System.step]
    rw [System.dispatchReady_idle s hl, hs]
  | host hub => rw [← hs]; rfl

theorem System.run_done (actions : List Action) (s : System)
    (hs : s.selection = handshakeDone) : (s.run actions).selection = handshakeDone := by
  induction actions generalizing s with
  | nil => exact hs
  | cons a actions ih =>
    simp only [System.run, List.foldl]
    exact ih _ (System.step_done s a hs)

theorem System.ready_of_awaiting (s : System) (hs : s.selection = awaitingHandshake) :
    s.dispatchReady.selection = handshakeDone := by
  have hl : s.listening = true := congrArg Selection.listening hs
  have hp : s.backendPromise = .pending :=
    Promise.resolution_pending _ (congrArg Selection.resolution hs)
  have ht : s.trace = awaitingHandshake.trace := congrArg Selection.trace hs
  have hc : s.created = [] := congrArg Selection.created hs
  have hr : s.listenerRuns = 0 := congrArg Selection.listenerRuns hs
  rw [System.dispatchReady_selection s hl hp, ht, hc, hr]
  rfl

theorem System.run_append (s : System) (xs ys : List Action) :
    s.run (xs ++ ys) = (s.run xs).run ys := by
  simp [System.run, List.foldl_append]

theorem System.run_handshake (actions : List Action) (s : System)
    (hs : s.selection = awaitingHandshake) :
    (s.run actions).selection = awaitingHandshake
      ∨ (s.run actions).selection = handshakeDone := by
  induction actions generalizing s with
  | nil => exact Or.inl hs
  | cons a actions ih =>
    simp only [System.run, List.foldl]
    cases hr : a.isReady with
    | false =>
      exact ih _ (by rw [System.step_selection_of_not_ready s a hr, hs])
    | true =>
      cases a with
      | ready => exact Or.inr (System.run_done actions _ (System.ready_of_awaiting s hs))
      | call o => simp [Action.isReady] at hr
      | host hub => simp [Action.isReady] at hr

theorem System.run_selection_of_idle (actions : List Action) (s : System)
    (hl : s.listening = false) : (s.run actions).selection = s.selection := by
  induction actions generalizing s with
  | nil => rfl
  | cons a actions ih =>
    simp only [System.run, List.foldl]
    have hstep : (s.step a).selection = s.selection := by
      cases a with
      | call o => exact System.invoke_selection s o
      | ready => simp only [System.step]; rw [System.dispatchReady_idle s hl]
      | host hub => rfl
    have hl2 : (s.step a).listening = false := by
      have := congrArg Selection.listening hstep
      simpa [System.selection, hl] using this
    have := ih (s.step a) hl2
    simp only [System.run] at this
    rw [this, hstep]

theorem testHubStorage_true (hub : HubSlot) (h : (testHubStorage hub).1 = .ok true) :
    testHubStorage hub = (.ok true, hub) := by
  cases hub with
  | inaccessible => simp [testHubStorage, testGeneric, hubStorageCheck] at h
  | absent => simp [testHubStorage, testGeneric, hubStorageCheck, toBoolean] at h
  | attached st => rfl

theorem testHubStorage_false (hub : HubSlot) (h : (testHubStorage hub).1 = .ok false) :
    testHubStorage hub = (.ok false, hub) := by
  cases hub with
  | inaccessible => rfl
  | absent => rfl
  | attached st => simp [testHubStorage, testGeneric, hubStorageCheck, toBoolean] at h

/-- C5: on a constrained host (`Byond.TRIDENT` truthy) the selection resolves
at once to a new `MemoryBackend` with `impl = IMPL_MEMORY`, and the only call
made to the environment is one `console.warn`: no probe, no `Byond.winset`, no
listener, whatever `window.hubStorage` is. -/
theorem StorageProxy.new_constrained (TRIDENT : JSValue) (hub : HubSlot)
    (hT : toBoolean TRIDENT = true) :
    (StorageProxy.new TRIDENT hub).backendPromise = .fulfilled (.memory MemoryBackend.new)
      ∧ MemoryBackend.new.impl = IMPL_MEMORY
      ∧ (StorageProxy.new TRIDENT hub).trace
          = [.warn "No supported storage backend found. Using in-memory storage."]
      ∧ (StorageProxy.new TRIDENT hub).listening = false
      ∧ (StorageProxy.new TRIDENT hub).created = [IMPL_MEMORY]
      ∧ (StorageProxy.new TRIDENT hub).hubStorage = hub := by
  simp [StorageProxy.new, hT, MemoryBackend.new]

theorem StorageProxy.new_constrained_witness :
    toBoolean (.data (.bool true)) = true
      ∧ (StorageProxy.new (.data (.bool true)) (.attached [])).trace
          = [.warn "No supported storage backend found. Using in-memory storage."] :=
  ⟨rfl, (StorageProxy.new_constrained (.data (.bool true)) (.attached []) rfl).2.2.1⟩

/-- C6: on a host that is not constrained and whose probe returns `true`, the
selection resolves at construction to a new `HubStorageBackend` with
`impl = IMPL_HUB_STORAGE`; the probe is the only call made, no listener is
registered, and no later action, readiness events included, changes the
selection. -/
theorem StorageProxy.new_reachable (TRIDENT : JSValue) (hub : HubSlot)
    (hT : toBoolean TRIDENT = false) (hp : (testHubStorage hub).1 = .ok true)
    (actions : List Action) :
    (StorageProxy.new TRIDENT hub).backendPromise
        = .fulfilled (.hubStorage HubStorageBackend.new)
      ∧ HubStorageBackend.new.impl = IMPL_HUB_STORAGE
      ∧ (StorageProxy.new TRIDENT hub).trace = [.testHubStorage]
      ∧ (StorageProxy.new TRIDENT hub).listening = false
      ∧ (StorageProxy.new TRIDENT hub).created = [IMPL_HUB_STORAGE]
      ∧ ((StorageProxy.new TRIDENT hub).run actions).selection
          = { listening := false, trace := [.testHubStorage], created := [IMPL_HUB_STORAGE],
              listenerRuns := 0, resolution := .fulfilled IMPL_HUB_STORAGE } := by
  have hnew : StorageProxy.new TRIDENT hub =
      { TRIDENT := TRIDENT, hubStorage := hub, listening := false, trace := [.testHubStorage],
        created := [HubStorageBackend.new.impl], listenerRuns := 0,
        backendPromise := .fulfilled (.hubStorage HubStorageBackend.new), waiting := [],
        settled := [] } := by
    simp [StorageProxy.new, hT, testHubStorage_true hub hp]
  refine ⟨by rw [hnew], rfl, by rw [hnew], by rw [hnew], by rw [hnew]; rfl, ?_⟩
  rw [System.run_selection_of_idle actions _ (by rw [hnew]), hnew]
  rfl

theorem StorageProxy.new_reachable_witness :
    toBoolean (.data .null) = false
      ∧ (testHubStorage (.attached [])).1 = .ok true
      ∧ ((StorageProxy.new (.data .null) (.attached [])).run [.ready, .ready]).selection
          = { listening := false, trace := [.testHubStorage], created := [IMPL_HUB_STORAGE],
              listenerRuns := 0, resolution := .fulfilled IMPL_HUB_STORAGE } :=
  ⟨rfl, rfl,
    (StorageProxy.new_reachable (.data .null) (.attached []) rfl rfl [.ready, .ready]).2.2.2.2.2⟩

theorem StorageProxy.new_awaiting (TRIDENT : JSValue) (hub : HubSlot)
    (hT : toBoolean TRIDENT = false) (hp : (testHubStorage hub).1 = .ok false) :
    (StorageProxy.new TRIDENT hub).selection = awaitingHandshake := by
  simp [StorageProxy.new, hT, testHubStorage_false hub hp, System.selection,
    awaitingHandshake, Promise.resolution]

/-- C7: on a host that is not constrained and whose probe returns `false`,
construction makes the probe, one `Byond.winset` request and one listener
registration and leaves `backendPromise` pending; it stays so under every
sequence of actions without a readiness event; the first readiness event
removes the listener and fulfils the promise with a `HubStorageBackend`, and
whatever follows, further readiness events included, changes nothing: the
listener body has run once, one backend was constructed and the probe was
called once. -/
theorem StorageProxy.handshake (TRIDENT : JSValue) (hub : HubSlot)
    (hT : toBoolean TRIDENT = false) (hp : (testHubStorage hub).1 = .ok false) :
    (StorageProxy.new TRIDENT hub).selection = awaitingHandshake
      ∧ (∀ actions : List Action, (∀ a ∈ actions, a.isReady = false) →
          ((StorageProxy.new TRIDENT hub).run actions).selection = awaitingHandshake)
      ∧ (∀ before after : List Action, (∀ a ∈ before, a.isReady = false) →
          ((StorageProxy.new TRIDENT hub).run (before ++ .ready :: after)).selection
            = handshakeDone)
      ∧ (∀ actions : List Action,
          ((StorageProxy.new TRIDENT hub).run actions).listenerRuns ≤ 1
            ∧ ((StorageProxy.new TRIDENT hub).run actions).created.length ≤ 1
            ∧ (((StorageProxy.new TRIDENT hub).run actions).trace.filter Call.isProbe).length
                = 1) := by
  have h0 := StorageProxy.new_awaiting TRIDENT hub hT hp
  refine ⟨h0, fun actions hno => System.run_awaiting actions _ h0 hno, ?_, ?_⟩
  · intro before after hno
    rw [System.run_append]
    have h1 := System.run_awaiting before _ h0 hno
    show (System.run ((System.run _ before).step .ready) after).selection = handshakeDone
    exact System.run_done after _ (System.ready_of_awaiting _ h1)
  · intro actions
    rcases System.run_handshake actions _ h0 with h | h
    · have h1 := congrArg Selection.listenerRuns h
      have h2 := congrArg Selection.created h
      have h3 := congrArg Selection.trace h
      simp only [System.selection] at h1 h2 h3
      rw [h1, h2, h3]
      exact ⟨by decide, by decide, rfl⟩
    · have h1 := congrArg Selection.listenerRuns h
      have h2 := congrArg Selection.created h
      have h3 := congrArg Selection.trace h
      simp only [System.selection] at h1 h2 h3
      rw [h1, h2, h3]
      exact ⟨by decide, by decide, rfl⟩

theorem StorageProxy.handshake_witness :
    toBoolean (.data .null) = false
      ∧ (testHubStorage .absent).1 = .ok false
      ∧ ((StorageProxy.new (.data .null) .absent).run
            ([.call (.get "a")] ++ .ready :: [.ready, .call .clear])).selection
          = handshakeDone :=
  ⟨rfl, rfl,
    (StorageProxy.handshake (.data .null) .absent rfl rfl).2.2.1 [.call (.get "a")]
      [.ready, .call .clear] (by simp [Action.isReady])⟩

/-- C8: with `backendPromise` fulfilled by backend `b`, each proxy method
finishes with exactly what the method of the same name of `b` produces on the
same arguments, success or failure alike, leaves `b` and the bridge as that
method leaves them, and changes nothing else. -/
theorem StorageProxy.forwards (s : System) (b : Backend)
    (h : s.backendPromise = .fulfilled b) (key : String) (value : JSData) :
    StorageProxy.get s key =
        { s with
          backendPromise := .fulfilled (b.get key s.hubStorage).2.1
          hubStorage := (b.get key s.hubStorage).2.2
          settled := s.settled ++ [⟨.get key, some b.impl, (b.get key s.hubStorage).1⟩] }
      ∧ StorageProxy.set s key value =
        { s with
          backendPromise := .fulfilled (b.set key value s.hubStorage).2.1
          hubStorage := (b.set key value s.hubStorage).2.2
          settled := s.settled
            ++ [⟨.set key value, some b.impl, (b.set key value s.hubStorage).1⟩] }
      ∧ StorageProxy.remove s key =
        { s with
          backendPromise := .fulfilled (b.remove key s.hubStorage).2.1
          hubStorage := (b.remove key s.hubStorage).2.2
          settled := s.settled ++ [⟨.remove key, some b.impl, (b.remove key s.hubStorage).1⟩] }
      ∧ StorageProxy.clear s =
        { s with
          backendPromise := .fulfilled (b.clear s.hubStorage).2.1
          hubStorage := (b.clear s.hubStorage).2.2
          settled := s.settled ++ [⟨.clear, some b.impl, (b.clear s.hubStorage).1⟩] } := by
  refine ⟨?_, ?_, ?_, ?_⟩ <;>
    simp [StorageProxy.get, StorageProxy.set, StorageProxy.remove, StorageProxy.clear,
      System.invoke, h, System.resume, Backend.perform]

theorem StorageProxy.forwards_witness :
    (detachedHubSystem).backendPromise = .fulfilled (.hubStorage HubStorageBackend.new)
      ∧ (StorageProxy.get detachedHubSystem "a").settled
          = [⟨.get "a", some IMPL_HUB_STORAGE, .error .typeError⟩] :=
  ⟨rfl, congrArg System.settled
    (StorageProxy.forwards detachedHubSystem (.hubStorage HubStorageBackend.new) rfl "a"
      .null).1⟩

/-- The scenario of the specification on a constrained host: `set("a", {x: 1})`
then `get("a")` are both served by the in-memory backend, the read returns
`{x: 1}`, and the trace holds the one diagnostic notice of the construction. -/
theorem StorageProxy.constrained_scenario :
    ((StorageProxy.new (.data (.bool true)) .absent).run
        [.call (.set "a" (.object [("x", .number (.int 1))])), .call (.get "a")]).settled
      = [⟨.set "a" (.object [("x", .number (.int 1))]), some IMPL_MEMORY,
            .ok (.data .undefined)⟩,
         ⟨.get "a", some IMPL_MEMORY, .ok (.data (.object [("x", .number (.int 1))]))⟩]
      ∧ ((StorageProxy.new (.data (.bool true)) .absent).run
        [.call (.set "a" (.object [("x", .number (.int 1))])), .call (.get "a")]).trace
      = [.warn "No supported storage backend found. Using in-memory storage."] :=
  ⟨rfl, rfl⟩

/-- Method calls made while the handshake is awaited are served, in the order
they were made, once the readiness event arrives. -/
theorem StorageProxy.waiting_scenario :
    ((StorageProxy.new (.data .null) .absent).run
        [.call (.set "a" (.bool true)), .call (.get "a")]).settled = []
      ∧ ((StorageProxy.new (.data .null) .absent).run
        [.call (.set "a" (.bool true)), .call (.get "a"), .host (.attached []),
          .ready]).settled
      = [⟨.set "a" (.bool true), some IMPL_HUB_STORAGE, .ok (.data .undefined)⟩,
         ⟨.get "a", some IMPL_HUB_STORAGE, .ok (.data (.bool true))⟩] :=
  ⟨rfl, rfl⟩

end Storage
